import Mathlib

/-!
Verification of the style-resolution and role-classification engine of the
AutomaticTypesettingTool repository.  The Python source is shallowly embedded:
dataclasses become structures, dicts become association lists in insertion
order, optional fields become `Option`, point values (Python floats that are
only copied, never computed with) become `Rat`, and fallible code returns
`Except`.  Each section below names the source file and function it embeds.
-/

namespace ATT

/-- Embeds `FontSpec` from src/style_reader.py. -/
structure FontSpec where
  ascii : Option String := none
  hAnsi : Option String := none
  eastAsia : Option String := none
  asciiTheme : Option String := none
  hAnsiTheme : Option String := none
  eastAsiaTheme : Option String := none
  deriving Repr, DecidableEq

/-- Association-list lookup mirroring Python dict `get` (keys are unique in
    the dicts the source builds, so first match is the binding). -/
def alistGet (m : List (String × String)) (k : String) : Option String :=
  match m.find? (fun p => p.1 == k) with
  | some p => some p.2
  | none => none

/-- Embeds `_resolve_theme_font` from src/style_reader.py. -/
def resolveThemeFont (themeMap : List (String × String)) (token : Option String) :
    Option String :=
  match token with
  | none => none
  | some t => alistGet themeMap t

/-- Embeds `FontSpec.apply_theme` from src/style_reader.py.  A `None`/empty
    Python theme dict is the empty list here (both are falsy in the source). -/
def FontSpec.applyTheme (f : FontSpec) (themeMap : List (String × String)) : FontSpec :=
  if themeMap.isEmpty then f
  else
    { ascii := f.ascii <|> resolveThemeFont themeMap f.asciiTheme
      hAnsi := f.hAnsi <|> resolveThemeFont themeMap f.hAnsiTheme
      eastAsia := f.eastAsia <|> resolveThemeFont themeMap f.eastAsiaTheme
      asciiTheme := f.asciiTheme
      hAnsiTheme := f.hAnsiTheme
      eastAsiaTheme := f.eastAsiaTheme }

/-- Embeds `FontSpec.preferred_name` from src/style_reader.py. -/
def FontSpec.preferredName (f : FontSpec) : Option String :=
  f.eastAsia <|> f.hAnsi <|> f.ascii

/-- Embeds `_merge_fonts` from src/style_reader.py (override wins per field). -/
def mergeFonts (base override : FontSpec) : FontSpec :=
  { ascii := override.ascii <|> base.ascii
    hAnsi := override.hAnsi <|> base.hAnsi
    eastAsia := override.eastAsia <|> base.eastAsia
    asciiTheme := override.asciiTheme <|> base.asciiTheme
    hAnsiTheme := override.hAnsiTheme <|> base.hAnsiTheme
    eastAsiaTheme := override.eastAsiaTheme <|> base.eastAsiaTheme }

/-- Embeds `StyleDefaults` from src/style_reader.py. -/
structure StyleDefaults where
  fonts : FontSpec
  fontSizePt : Option Rat
  bold : Option Bool
  alignment : Option String
  spaceBeforePt : Option Rat
  spaceAfterPt : Option Rat
  lineRule : Option String
  lineTwips : Option Int
  outlineLevel : Option Int
  deriving Repr, DecidableEq

/-- Embeds `StyleDefinition` from src/style_reader.py. -/
structure StyleDefinition where
  styleId : String
  name : Option String
  basedOn : Option String
  fonts : FontSpec
  fontSizePt : Option Rat
  bold : Option Bool
  alignment : Option String
  spaceBeforePt : Option Rat
  spaceAfterPt : Option Rat
  lineRule : Option String
  lineTwips : Option Int
  outlineLevel : Option Int
  deriving Repr, DecidableEq

/-- Embeds `ResolvedStyle` from src/style_reader.py. -/
structure ResolvedStyle where
  styleId : String
  name : Option String
  fonts : FontSpec
  fontName : Option String
  fontSizePt : Option Rat
  bold : Option Bool
  alignment : Option String
  spaceBeforePt : Option Rat
  spaceAfterPt : Option Rat
  lineRule : Option String
  lineTwips : Option Int
  outlineLevel : Option Int
  deriving Repr, DecidableEq

/-- The style catalog: the dict built by `parse_styles_xml`, keyed by style id. -/
abbrev StyleCatalog := List (String × StyleDefinition)

/-- Dict lookup `styles.get(style_id)` on the catalog. -/
def lookupStyle (styles : StyleCatalog) (sid : String) : Option StyleDefinition :=
  match styles.find? (fun p => p.1 == sid) with
  | some p => some p.2
  | none => none

theorem lookupStyle_mem_keys {styles : StyleCatalog} {sid : String}
    {st : StyleDefinition} (h : lookupStyle styles sid = some st) :
    sid ∈ styles.map Prod.fst := by
  unfold lookupStyle at h
  cases hf : styles.find? (fun p => p.1 == sid) with
  | none => rw [hf] at h; cases h
  | some p =>
    rw [hf] at h
    have hmem := List.mem_of_find?_eq_some hf
    have hp := List.find?_some hf
    have : p.1 = sid := by simpa using hp
    subst this
    exact List.mem_map_of_mem Prod.fst hmem

theorem length_filter_le_of_imp (l : List String) (p q : String → Bool)
    (h : ∀ a, p a = true → q a = true) :
    (l.filter p).length ≤ (l.filter q).length := by
  induction l with
  | nil => simp
  | cons x xs ih =>
    by_cases hp : p x = true
    · have hq := h x hp
      simp [List.filter, hp, hq]
      omega
    · have hp' : p x = false := by
        cases hpx : p x
        · rfl
        · exact absurd hpx hp
      cases hq : q x <;> simp [List.filter, hp', hq] <;> omega

theorem length_filter_visited_cons_lt (keys : List String) (visited : List String)
    (cur : String) (hk : cur ∈ keys) (hv : cur ∉ visited) :
    (keys.filter (fun k => !decide (k ∈ cur :: visited))).length <
      (keys.filter (fun k => !decide (k ∈ visited))).length := by
  induction keys with
  | nil => cases hk
  | cons x xs ih =>
    by_cases hx : x = cur
    · subst hx
      have e1 : List.filter (fun k => !decide (k ∈ x :: visited)) (x :: xs) =
          List.filter (fun k => !decide (k ∈ x :: visited)) xs := by
        simp [List.filter_cons]
      have e2 : List.filter (fun k => !decide (k ∈ visited)) (x :: xs) =
          x :: List.filter (fun k => !decide (k ∈ visited)) xs := by
        simp [List.filter_cons, hv]
      rw [e1, e2]
      have hle : (xs.filter (fun k => !decide (k ∈ x :: visited))).length ≤
          (xs.filter (fun k => !decide (k ∈ visited))).length := by
        apply length_filter_le_of_imp
        intro a ha
        simp only [Bool.not_eq_true', decide_eq_false_iff_not, List.mem_cons,
          not_or] at ha ⊢
        exact ha.2
      simp only [List.length_cons]
      omega
    · have hk' : cur ∈ xs := by
        cases hk with
        | head => exact absurd rfl (fun h => hx h.symm)
        | tail _ h => exact h
      rcases Decidable.em (x ∈ visited) with hm | hm
      · have e1 : List.filter (fun k => !decide (k ∈ cur :: visited)) (x :: xs) =
            List.filter (fun k => !decide (k ∈ cur :: visited)) xs := by
          simp [List.filter_cons, hm]
        have e2 : List.filter (fun k => !decide (k ∈ visited)) (x :: xs) =
            List.filter (fun k => !decide (k ∈ visited)) xs := by
          simp [List.filter_cons, hm]
        rw [e1, e2]
        exact ih hk'
      · have e1 : List.filter (fun k => !decide (k ∈ cur :: visited)) (x :: xs) =
            x :: List.filter (fun k => !decide (k ∈ cur :: visited)) xs := by
          simp [List.filter_cons, hm, hx]
        have e2 : List.filter (fun k => !decide (k ∈ visited)) (x :: xs) =
            x :: List.filter (fun k => !decide (k ∈ visited)) xs := by
          simp [List.filter_cons, hm]
        rw [e1, e2]
        simpa using Nat.succ_lt_succ (ih hk')

/-- Embeds `_collect_style_chain` from src/style_reader.py before the final
    `reverse`: the walk from the target up the `based_on` chain, stopping at an
    already-visited id (cycle) or a missing ancestor.  The Python loop's
    `visited` set is the `visited` list here. -/
def collectChainAux (styles : StyleCatalog) (visited : List String) (cur : String) :
    List StyleDefinition :=
  if hv : cur ∈ visited then []
  else
    match hm : lookupStyle styles cur with
    | none => []
    | some st =>
      st ::
        (match st.basedOn with
         | none => []
         | some pid => collectChainAux styles (cur :: visited) pid)
termination_by ((styles.map Prod.fst).filter (fun k => !decide (k ∈ visited))).length
decreasing_by
  exact length_filter_visited_cons_lt _ visited cur (lookupStyle_mem_keys hm) hv

/-- Embeds `_collect_style_chain` from src/style_reader.py:
    the `based_on` chain of a style ordered root to target. -/
def collectStyleChain (styles : StyleCatalog) (sid : String) : List StyleDefinition :=
  (collectChainAux styles [] sid).reverse

/-- The ids visited by the `_collect_style_chain` walk, in walk order
    (target first).  Verification artifact used to state the C8 claim. -/
def walkIdsAux (styles : StyleCatalog) (visited : List String) (cur : String) :
    List String :=
  if hv : cur ∈ visited then []
  else
    match hm : lookupStyle styles cur with
    | none => []
    | some st =>
      cur ::
        (match st.basedOn with
         | none => []
         | some pid => walkIdsAux styles (cur :: visited) pid)
termination_by ((styles.map Prod.fst).filter (fun k => !decide (k ∈ visited))).length
decreasing_by
  exact length_filter_visited_cons_lt _ visited cur (lookupStyle_mem_keys hm) hv

theorem collectChainAux_visited (styles : StyleCatalog) (visited : List String)
    (cur : String) (hv : cur ∈ visited) :
    collectChainAux styles visited cur = [] := by
  rw [collectChainAux]
  simp [hv]

theorem collectChainAux_missing (styles : StyleCatalog) (visited : List String)
    (cur : String) (hv : cur ∉ visited) (hm : lookupStyle styles cur = none) :
    collectChainAux styles visited cur = [] := by
  rw [collectChainAux]
  rw [dif_neg hv]
  split <;> simp_all

theorem collectChainAux_step (styles : StyleCatalog) (visited : List String)
    (cur : String) (hv : cur ∉ visited) (st : StyleDefinition)
    (hm : lookupStyle styles cur = some st) :
    collectChainAux styles visited cur =
      st ::
        (match st.basedOn with
         | none => []
         | some pid => collectChainAux styles (cur :: visited) pid) := by
  rw [collectChainAux]
  rw [dif_neg hv]
  split <;> simp_all

theorem walkIdsAux_step (styles : StyleCatalog) (visited : List String)
    (cur : String) (hv : cur ∉ visited) (st : StyleDefinition)
    (hm : lookupStyle styles cur = some st) :
    walkIdsAux styles visited cur =
      cur ::
        (match st.basedOn with
         | none => []
         | some pid => walkIdsAux styles (cur :: visited) pid) := by
  rw [walkIdsAux]
  rw [dif_neg hv]
  split <;> simp_all

/-- Accumulator of `resolve_style`'s fold (the local variables seeded from the
    defaults); it has exactly the `StyleDefaults` shape, so that type is reused. -/
def resolveFoldStep (a : StyleDefaults) (st : StyleDefinition) : StyleDefaults :=
  { fonts := mergeFonts a.fonts st.fonts
    fontSizePt := st.fontSizePt <|> a.fontSizePt
    bold := st.bold <|> a.bold
    alignment := st.alignment <|> a.alignment
    spaceBeforePt := st.spaceBeforePt <|> a.spaceBeforePt
    spaceAfterPt := st.spaceAfterPt <|> a.spaceAfterPt
    lineRule := st.lineRule <|> a.lineRule
    lineTwips := st.lineTwips <|> a.lineTwips
    outlineLevel := st.outlineLevel <|> a.outlineLevel }

/-- Embeds `resolve_style` from src/style_reader.py.  The `KeyError` raised for
    an unknown id becomes the `Except.error` case. -/
def resolveStyle (sid : String) (styles : StyleCatalog) (defaults : StyleDefaults)
    (themeMap : List (String × String)) : Except String ResolvedStyle :=
  match lookupStyle styles sid with
  | none => .error ("unknown style_id: " ++ sid)
  | some target =>
    let chain := collectStyleChain styles sid
    let acc0 : StyleDefaults :=
      { fonts := {}
        fontSizePt := defaults.fontSizePt
        bold := defaults.bold
        alignment := defaults.alignment
        spaceBeforePt := defaults.spaceBeforePt
        spaceAfterPt := defaults.spaceAfterPt
        lineRule := defaults.lineRule
        lineTwips := defaults.lineTwips
        outlineLevel := defaults.outlineLevel }
    let acc := chain.foldl resolveFoldStep acc0
    let resolvedFonts := acc.fonts.applyTheme themeMap
    let defaultFonts := defaults.fonts.applyTheme themeMap
    let finalFonts := mergeFonts defaultFonts resolvedFonts
    .ok
      { styleId := sid
        name := target.name
        fonts := finalFonts
        fontName := finalFonts.preferredName
        fontSizePt := acc.fontSizePt
        bold := acc.bold
        alignment := acc.alignment
        spaceBeforePt := acc.spaceBeforePt
        spaceAfterPt := acc.spaceAfterPt
        lineRule := acc.lineRule
        lineTwips := acc.lineTwips
        outlineLevel := acc.outlineLevel }

/-- The six table-border presence flags consumed by
    `_classify_table_border_pattern` (src/template_parser.py). -/
structure TableBorders where
  top : Bool
  bottom : Bool
  left : Bool
  right : Bool
  insideH : Bool
  insideV : Bool
  deriving Repr, DecidableEq

/-- Embeds `_classify_table_border_pattern` from src/template_parser.py.
    The Python input is a dict of the six flags; missing keys default to
    `False`, so the total structure above carries the same information. -/
def classifyTableBorderPattern (b : TableBorders) : String :=
  let outerAny := b.top || b.bottom || b.left || b.right
  let innerAny := b.insideH || b.insideV
  if !outerAny && !innerAny then "none"
  else
    let outerAll := b.top && b.bottom && b.left && b.right
    let innerAll := b.insideH && b.insideV
    if outerAll && innerAll then "grid"
    else if outerAll && !innerAny then "outer_only"
    else if innerAll && !outerAny then "inner_only"
    else "mixed"

/-- Embeds `SectionPosition` from src/section_rules.py. -/
inductive SectionPosition where
  | firstPage
  | front
  | body
  | back
  | lastPage
  deriving Repr, DecidableEq

/-- Embeds `BodyRangeRule` from src/section_rules.py. -/
inductive BodyRangeRule where
  | untilNextTitle
  | untilBlank
  | fixedParagraphs
  deriving Repr, DecidableEq

/-- Embeds `SectionRule` from src/section_rules.py. -/
structure SectionRule where
  key : String
  displayName : String
  titleKeywords : List String
  contentKeywords : List String := []
  titleStyleNames : List String := []
  position : SectionPosition := .body
  bodyRange : BodyRangeRule := .untilNextTitle
  bodyParagraphLimit : Option Int := none
  deriving Repr, DecidableEq

/-- Python str.strip() over the character list (whitespace on both ends
    removed); used wherever the source calls .strip(). -/
def pyStrip (s : String) : String :=
  ⟨((s.data.dropWhile Char.isWhitespace).reverse.dropWhile Char.isWhitespace).reverse⟩

/-- Embeds `SectionRule.validate` from src/section_rules.py; the `ValueError`
    raises become `Except.error` with the source's messages. -/
def SectionRule.validate (r : SectionRule) : Except String Unit :=
  if pyStrip r.key = "" then .error "section key must be non-empty"
  else if pyStrip r.displayName = "" then .error "section display_name must be non-empty"
  else if r.titleKeywords.isEmpty && r.contentKeywords.isEmpty then
    .error "section keywords must be non-empty"
  else if r.bodyRange = .fixedParagraphs then
    match r.bodyParagraphLimit with
    | none => .error "fixed paragraph range requires positive limit"
    | some n =>
      if n ≤ 0 then .error "fixed paragraph range requires positive limit"
      else .ok ()
  else
    match r.bodyParagraphLimit with
    | some _ => .error "body_paragraph_limit only applies to fixed paragraph range"
    | none => .ok ()

theorem walkIdsAux_visited (styles : StyleCatalog) (visited : List String)
    (cur : String) (hv : cur ∈ visited) :
    walkIdsAux styles visited cur = [] := by
  rw [walkIdsAux]
  simp [hv]

theorem walkIdsAux_missing (styles : StyleCatalog) (visited : List String)
    (cur : String) (hv : cur ∉ visited) (hm : lookupStyle styles cur = none) :
    walkIdsAux styles visited cur = [] := by
  rw [walkIdsAux]
  rw [dif_neg hv]
  split <;> simp_all

theorem walkIdsAux_eq_nil (styles : StyleCatalog) (visited : List String)
    (cur : String) (h : walkIdsAux styles visited cur = []) :
    cur ∈ visited ∨ lookupStyle styles cur = none := by
  by_cases hv : cur ∈ visited
  · exact Or.inl hv
  · cases hm : lookupStyle styles cur with
    | none => exact Or.inr rfl
    | some st =>
      rw [walkIdsAux_step styles visited cur hv st hm] at h
      cases h

theorem walkIdsAux_head (styles : StyleCatalog) (visited : List String)
    (cur : String) :
    walkIdsAux styles visited cur = [] ∨
      ∃ t, walkIdsAux styles visited cur = cur :: t := by
  by_cases hv : cur ∈ visited
  · exact Or.inl (walkIdsAux_visited styles visited cur hv)
  · cases hm : lookupStyle styles cur with
    | none => exact Or.inl (walkIdsAux_missing styles visited cur hv hm)
    | some st =>
      rw [walkIdsAux_step styles visited cur hv st hm]
      exact Or.inr ⟨_, rfl⟩

theorem walkIdsAux_not_mem_visited (styles : StyleCatalog) :
    ∀ visited cur, ∀ x ∈ walkIdsAux styles visited cur, x ∉ visited := by
  intro visited cur
  induction visited, cur using walkIdsAux.induct styles with
  | case1 visited cur hv =>
    rw [walkIdsAux_visited styles visited cur hv]
    intro x hx; cases hx
  | case2 visited cur hv hm =>
    rw [walkIdsAux_missing styles visited cur hv hm]
    intro x hx; cases hx
  | case3 visited cur hv st hm ih =>
    rw [walkIdsAux_step styles visited cur hv st hm]
    cases hb : st.basedOn with
    | none =>
      simp only [hb]
      intro x hx
      rcases List.mem_singleton.mp hx with rfl
      exact hv
    | some pid =>
      simp only [hb]
      intro x hx
      rcases List.mem_cons.mp hx with rfl | hx'
      · exact hv
      · have := ih pid x hx'
        intro hcon
        exact this (List.mem_cons_of_mem _ hcon)

theorem walkIdsAux_nodup (styles : StyleCatalog) :
    ∀ visited cur, (walkIdsAux styles visited cur).Nodup := by
  intro visited cur
  induction visited, cur using walkIdsAux.induct styles with
  | case1 visited cur hv =>
    rw [walkIdsAux_visited styles visited cur hv]; exact List.nodup_nil
  | case2 visited cur hv hm =>
    rw [walkIdsAux_missing styles visited cur hv hm]; exact List.nodup_nil
  | case3 visited cur hv st hm ih =>
    rw [walkIdsAux_step styles visited cur hv st hm]
    cases hb : st.basedOn with
    | none => simp only [hb]; simp
    | some pid =>
      simp only [hb]
      refine List.nodup_cons.mpr ⟨?_, ih pid⟩
      intro hmem
      exact walkIdsAux_not_mem_visited styles (cur :: visited) pid cur hmem
        (List.mem_cons_self cur visited)

theorem walkIdsAux_lookup_isSome (styles : StyleCatalog) :
    ∀ visited cur, ∀ x ∈ walkIdsAux styles visited cur,
      ∃ st, lookupStyle styles x = some st := by
  intro visited cur
  induction visited, cur using walkIdsAux.induct styles with
  | case1 visited cur hv =>
    rw [walkIdsAux_visited styles visited cur hv]; intro x hx; cases hx
  | case2 visited cur hv hm =>
    rw [walkIdsAux_missing styles visited cur hv hm]; intro x hx; cases hx
  | case3 visited cur hv st hm ih =>
    rw [walkIdsAux_step styles visited cur hv st hm]
    cases hb : st.basedOn with
    | none =>
      simp only [hb]
      intro x hx
      rcases List.mem_singleton.mp hx with rfl
      exact ⟨st, hm⟩
    | some pid =>
      simp only [hb]
      intro x hx
      rcases List.mem_cons.mp hx with rfl | hx'
      · exact ⟨st, hm⟩
      · exact ih pid x hx'

theorem collectChainAux_eq_filterMap (styles : StyleCatalog) :
    ∀ visited cur, collectChainAux styles visited cur =
      (walkIdsAux styles visited cur).filterMap (lookupStyle styles) := by
  intro visited cur
  induction visited, cur using walkIdsAux.induct styles with
  | case1 visited cur hv =>
    rw [walkIdsAux_visited styles visited cur hv,
      collectChainAux_visited styles visited cur hv]
    rfl
  | case2 visited cur hv hm =>
    rw [walkIdsAux_missing styles visited cur hv hm,
      collectChainAux_missing styles visited cur hv hm]
    rfl
  | case3 visited cur hv st hm ih =>
    rw [walkIdsAux_step styles visited cur hv st hm,
      collectChainAux_step styles visited cur hv st hm]
    cases hb : st.basedOn with
    | none => simp [List.filterMap_cons, hm]
    | some pid => simp [List.filterMap_cons, hm, ih pid]

theorem walkIdsAux_chain (styles : StyleCatalog) :
    ∀ visited cur,
      List.Chain' (fun a b => ∃ st, lookupStyle styles a = some st ∧ st.basedOn = some b)
        (walkIdsAux styles visited cur) := by
  intro visited cur
  induction visited, cur using walkIdsAux.induct styles with
  | case1 visited cur hv =>
    rw [walkIdsAux_visited styles visited cur hv]; exact List.chain'_nil
  | case2 visited cur hv hm =>
    rw [walkIdsAux_missing styles visited cur hv hm]; exact List.chain'_nil
  | case3 visited cur hv st hm ih =>
    rw [walkIdsAux_step styles visited cur hv st hm]
    cases hb : st.basedOn with
    | none =>
      simp only [hb]
      exact List.chain'_singleton cur
    | some pid =>
      simp only [hb]
      refine List.chain'_cons'.mpr ⟨?_, ih pid⟩
      intro b hb'
      rcases walkIdsAux_head styles (cur :: visited) pid with hnil | ⟨t, ht⟩
      · rw [hnil] at hb'; cases hb'
      · rw [ht] at hb'
        simp only [List.head?_cons, Option.mem_def, Option.some_inj] at hb'
        subst hb'
        exact ⟨st, hm, hb⟩

theorem walkIdsAux_last (styles : StyleCatalog) :
    ∀ visited cur, ∀ l, (walkIdsAux styles visited cur).getLast? = some l →
      ∃ st, lookupStyle styles l = some st ∧
        (st.basedOn = none ∨
          ∃ nxt, st.basedOn = some nxt ∧
            (nxt ∈ walkIdsAux styles visited cur ∨ nxt ∈ visited ∨
              lookupStyle styles nxt = none)) := by
  intro visited cur
  induction visited, cur using walkIdsAux.induct styles with
  | case1 visited cur hv =>
    rw [walkIdsAux_visited styles visited cur hv]
    intro l hl; cases hl
  | case2 visited cur hv hm =>
    rw [walkIdsAux_missing styles visited cur hv hm]
    intro l hl; cases hl
  | case3 visited cur hv st hm ih =>
    rw [walkIdsAux_step styles visited cur hv st hm]
    cases hb : st.basedOn with
    | none =>
      simp only [hb]
      intro l hl
      simp only [List.getLast?_singleton, Option.some_inj] at hl
      subst hl
      exact ⟨st, hm, Or.inl hb⟩
    | some pid =>
      simp only [hb]
      intro l hl
      cases hrest : walkIdsAux styles (cur :: visited) pid with
      | nil =>
        rw [hrest] at hl
        simp only [List.getLast?_singleton, Option.some_inj] at hl
        subst hl
        refine ⟨st, hm, Or.inr ⟨pid, hb, ?_⟩⟩
        rcases walkIdsAux_eq_nil styles (cur :: visited) pid hrest with hmem | hnone
        · rcases List.mem_cons.mp hmem with rfl | hmem'
          · exact Or.inl (List.mem_cons_self _ _)
          · exact Or.inr (Or.inl hmem')
        · exact Or.inr (Or.inr hnone)
      | cons y ys =>
        rw [hrest] at hl
        have hlast : (cur :: y :: ys).getLast? = (y :: ys).getLast? := by
          simp [List.getLast?_cons_cons]
        rw [hlast] at hl
        rw [← hrest] at hl
        rcases ih pid l hl with ⟨st', hst', hcase⟩
        refine ⟨st', hst', ?_⟩
        rcases hcase with hnone | ⟨nxt, hnxt, hloc⟩
        · exact Or.inl hnone
        · refine Or.inr ⟨nxt, hnxt, ?_⟩
          rcases hloc with hin | hmem | hnone'
          · rw [hrest] at hin
            exact Or.inl (List.mem_cons_of_mem _ hin)
          · rcases List.mem_cons.mp hmem with rfl | hmem'
            · exact Or.inl (List.mem_cons_self _ _)
            · exact Or.inr (Or.inl hmem')
          · exact Or.inr (Or.inr hnone')

/-- C8: for every finite style catalog, including cyclic or dangling
    `based_on` references, the inheritance-chain walk of `_collect_style_chain`
    terminates: the walked ids are pairwise distinct (each id visited at most
    once), their number is bounded by the number of catalog keys, consecutive
    walked ids are linked by `based_on`, the walk ends only at a root, an
    already-visited id or a missing ancestor, and the returned chain is the
    walked definitions ordered root to target. -/
theorem claim_C8_chain_walk_terminates (styles : StyleCatalog) (sid : String) :
    (walkIdsAux styles [] sid).Nodup ∧
    collectStyleChain styles sid =
      ((walkIdsAux styles [] sid).filterMap (lookupStyle styles)).reverse ∧
    (walkIdsAux styles [] sid).length ≤ (styles.map Prod.fst).dedup.length ∧
    List.Chain' (fun x y => ∃ st, lookupStyle styles x = some st ∧ st.basedOn = some y)
      (walkIdsAux styles [] sid) ∧
    (∀ l, (walkIdsAux styles [] sid).getLast? = some l →
      ∃ st, lookupStyle styles l = some st ∧
        (st.basedOn = none ∨
          ∃ nxt, st.basedOn = some nxt ∧
            (nxt ∈ walkIdsAux styles [] sid ∨ lookupStyle styles nxt = none))) := by
  refine ⟨walkIdsAux_nodup styles [] sid, ?_, ?_, walkIdsAux_chain styles [] sid, ?_⟩
  · unfold collectStyleChain
    rw [collectChainAux_eq_filterMap]
  · have hnd := walkIdsAux_nodup styles [] sid
    have hsub : (walkIdsAux styles [] sid).toFinset ⊆ (styles.map Prod.fst).toFinset := by
      intro x hx
      rw [List.mem_toFinset] at hx ⊢
      rcases walkIdsAux_lookup_isSome styles [] sid x hx with ⟨st, hst⟩
      exact lookupStyle_mem_keys hst
    have h1 : (walkIdsAux styles [] sid).toFinset.card =
        (walkIdsAux styles [] sid).length := List.toFinset_card_of_nodup hnd
    have h2 : (styles.map Prod.fst).toFinset.card =
        (styles.map Prod.fst).dedup.length := List.card_toFinset _
    calc (walkIdsAux styles [] sid).length
        = (walkIdsAux styles [] sid).toFinset.card := h1.symm
      _ ≤ (styles.map Prod.fst).toFinset.card := Finset.card_le_card hsub
      _ = (styles.map Prod.fst).dedup.length := h2
  · intro l hl
    rcases walkIdsAux_last styles [] sid l hl with ⟨st, hst, hcase⟩
    refine ⟨st, hst, ?_⟩
    rcases hcase with hnone | ⟨nxt, hnxt, hloc⟩
    · exact Or.inl hnone
    · refine Or.inr ⟨nxt, hnxt, ?_⟩
      rcases hloc with hin | hmem | hnone'
      · exact Or.inl hin
      · cases hmem
      · exact Or.inr hnone'

/-- Cyclic two-style catalog used to witness the C8 theorem. -/
def cyclicStyleA : StyleDefinition :=
  { styleId := "a", name := some "A", basedOn := some "b", fonts := {}
    fontSizePt := none, bold := none, alignment := none, spaceBeforePt := none
    spaceAfterPt := none, lineRule := none, lineTwips := none, outlineLevel := none }

/-- Second element of the cyclic catalog. -/
def cyclicStyleB : StyleDefinition :=
  { styleId := "b", name := some "B", basedOn := some "a", fonts := {}
    fontSizePt := none, bold := none, alignment := none, spaceBeforePt := none
    spaceAfterPt := none, lineRule := none, lineTwips := none, outlineLevel := none }

/-- A catalog whose `based_on` references form a cycle. -/
def cyclicCatalog : StyleCatalog := [("a", cyclicStyleA), ("b", cyclicStyleB)]

theorem cyclicCatalog_walk : walkIdsAux cyclicCatalog [] "a" = ["a", "b"] := by
  rw [walkIdsAux_step cyclicCatalog [] "a" (by simp) cyclicStyleA rfl,
    show cyclicStyleA.basedOn = some "b" from rfl]
  show "a" :: walkIdsAux cyclicCatalog ["a"] "b" = _
  rw [walkIdsAux_step cyclicCatalog ["a"] "b" (by decide) cyclicStyleB rfl,
    show cyclicStyleB.basedOn = some "a" from rfl]
  show "a" :: "b" :: walkIdsAux cyclicCatalog ["b", "a"] "a" = _
  rw [walkIdsAux_visited cyclicCatalog ["b", "a"] "a" (by decide)]

/-- Witness for C8: on the cyclic catalog the walk ends at "b", whose parent
    "a" was already visited. -/
theorem claim_C8_witness :
    ∃ st, lookupStyle cyclicCatalog "b" = some st ∧
      (st.basedOn = none ∨
        ∃ nxt, st.basedOn = some nxt ∧
          (nxt ∈ walkIdsAux cyclicCatalog [] "a" ∨
            lookupStyle cyclicCatalog nxt = none)) := by
  have h := claim_C8_chain_walk_terminates cyclicCatalog "a"
  refine h.2.2.2.2 "b" ?_
  rw [cyclicCatalog_walk]
  rfl

/-- C1: in any catalog where the child style is based on a parent that defines
    a font size and an alignment, and the child sets only a different
    alignment (size unset), `resolve_style` on the child yields the child's
    alignment and the parent's size, whatever the document defaults and theme
    map are. -/
theorem claim_C1_child_overrides_parent
    (styles : StyleCatalog) (defaults : StyleDefaults)
    (themeMap : List (String × String)) (cid pid : String)
    (child parent : StyleDefinition) (a b : String) (s : Rat)
    (hc : lookupStyle styles cid = some child)
    (hbo : child.basedOn = some pid)
    (hne : pid ≠ cid)
    (hp : lookupStyle styles pid = some parent)
    (hcs : child.fontSizePt = none)
    (hca : child.alignment = some a)
    (hps : parent.fontSizePt = some s)
    (hpa : parent.alignment = some b)
    (hab : a ≠ b) :
    ∃ r, resolveStyle cid styles defaults themeMap = Except.ok r ∧
      r.alignment = some a ∧ r.fontSizePt = some s := by
  have h1 : collectChainAux styles [] cid = child :: collectChainAux styles [cid] pid := by
    rw [collectChainAux_step styles [] cid (by simp) child hc, hbo]
  have h2 : collectChainAux styles [cid] pid =
      parent ::
        (match parent.basedOn with
         | none => []
         | some g => collectChainAux styles (pid :: [cid]) g) :=
    collectChainAux_step styles [cid] pid (by simp [hne]) parent hp
  have hchain : collectStyleChain styles cid =
      ((match parent.basedOn with
        | none => ([] : List StyleDefinition)
        | some g => collectChainAux styles (pid :: [cid]) g).reverse ++ [parent]) ++
        [child] := by
    unfold collectStyleChain
    rw [h1, h2]
    simp [List.reverse_cons]
  simp only [resolveStyle, hc]
  refine ⟨_, rfl, ?_, ?_⟩
  · rw [hchain]
    rw [List.foldl_append, List.foldl_append]
    simp [resolveFoldStep, hca]
  · rw [hchain]
    rw [List.foldl_append, List.foldl_append]
    simp [resolveFoldStep, hcs, hps]

/-- Parent style of the C1 witness catalog. -/
def c1Parent : StyleDefinition :=
  { styleId := "base", name := some "Base", basedOn := none, fonts := {}
    fontSizePt := some 14, bold := none, alignment := some "LEFT"
    spaceBeforePt := none, spaceAfterPt := none, lineRule := none
    lineTwips := none, outlineLevel := none }

/-- Child style of the C1 witness catalog: only a different alignment set. -/
def c1Child : StyleDefinition :=
  { styleId := "child", name := some "Child", basedOn := some "base", fonts := {}
    fontSizePt := none, bold := none, alignment := some "CENTER"
    spaceBeforePt := none, spaceAfterPt := none, lineRule := none
    lineTwips := none, outlineLevel := none }

/-- Catalog for the C1 witness. -/
def c1Catalog : StyleCatalog := [("child", c1Child), ("base", c1Parent)]

/-- Defaults for the C1 witness. -/
def c1Defaults : StyleDefaults :=
  { fonts := {}, fontSizePt := some 12, bold := none, alignment := some "JUSTIFY"
    spaceBeforePt := none, spaceAfterPt := none, lineRule := none
    lineTwips := none, outlineLevel := none }

/-- Witness for C1 at a concrete catalog. -/
theorem claim_C1_witness :
    ∃ r, resolveStyle "child" c1Catalog c1Defaults [] = Except.ok r ∧
      r.alignment = some "CENTER" ∧ r.fontSizePt = some 14 :=
  claim_C1_child_overrides_parent c1Catalog c1Defaults [] "child" "base"
    c1Child c1Parent "CENTER" "LEFT" 14 rfl rfl (by decide) rfl rfl rfl rfl rfl
    (by decide)

/-- The six-flag combination that refutes C6 as stated: only the two inner
    flags are set. -/
def innerOnlyBorders : TableBorders :=
  { top := false, bottom := false, left := false, right := false
    insideH := true, insideV := true }

/-- Counterexample for C6: with only the two inner flags set the code returns
    the separate category "inner_only", not "mixed" as the claim requires. -/
theorem claim_C6_counterexample :
    classifyTableBorderPattern innerOnlyBorders = "inner_only" ∧
      ("inner_only" : String) ≠ "mixed" := by
  exact ⟨rfl, by decide⟩

/-- The amended C6 classification, written from the amended claim's words:
    all six flags give grid; the four outer flags with no inner flag give
    outer_only; no flags give none; the two inner flags with no outer flag
    give inner_only; any other combination gives mixed. -/
def classifyTableBorderPatternAmendedSpec (b : TableBorders) : String :=
  if b.top && b.bottom && b.left && b.right && b.insideH && b.insideV then "grid"
  else if b.top && b.bottom && b.left && b.right && !b.insideH && !b.insideV then
    "outer_only"
  else if !b.top && !b.bottom && !b.left && !b.right && !b.insideH && !b.insideV then
    "none"
  else if b.insideH && b.insideV && !b.top && !b.bottom && !b.left && !b.right then
    "inner_only"
  else "mixed"

/-- C6 (amended): the border classifier agrees with the amended description on
    every assignment of the six flags. -/
theorem claim_C6_amended_classification (b : TableBorders) :
    classifyTableBorderPattern b = classifyTableBorderPatternAmendedSpec b := by
  obtain ⟨t, bo, l, r, ih, iv⟩ := b
  cases t <;> cases bo <;> cases l <;> cases r <;> cases ih <;> cases iv <;> rfl

/-- C9: `SectionRule.validate` accepts a rule exactly when the key and display
    name are not empty or whitespace-only, at least one keyword (title or
    content) is present, and a positive body-paragraph limit is supplied
    exactly when the termination policy is the fixed-paragraph-count policy. -/
theorem claim_C9_section_rule_validation (r : SectionRule) :
    r.validate = Except.ok () ↔
      (pyStrip r.key ≠ "" ∧ pyStrip r.displayName ≠ "" ∧
        (r.titleKeywords ≠ [] ∨ r.contentKeywords ≠ []) ∧
        (r.bodyRange = BodyRangeRule.fixedParagraphs →
          ∃ n, r.bodyParagraphLimit = some n ∧ 1 ≤ n) ∧
        (r.bodyRange ≠ BodyRangeRule.fixedParagraphs →
          r.bodyParagraphLimit = none)) := by
  unfold SectionRule.validate
  split_ifs with h1 h2 h3 h4
  · simp [h1]
  · simp [h2]
  · rw [Bool.and_eq_true, List.isEmpty_iff, List.isEmpty_iff] at h3
    simp [h3.1, h3.2]
  · rw [Bool.and_eq_true] at h3
    push_neg at h3
    cases hl : r.bodyParagraphLimit with
    | none => simp [hl, h4]
    | some n =>
      show (if n ≤ 0 then
          Except.error "fixed paragraph range requires positive limit"
        else Except.ok ()) = Except.ok () ↔ _
      by_cases hn : n ≤ 0
      · rw [if_pos hn]
        constructor
        · intro h; cases h
        · rintro ⟨-, -, -, hfix, -⟩
          rcases hfix h4 with ⟨m, hm, hm1⟩
          cases hm
          omega
      · rw [if_neg hn]
        constructor
        · intro _
          refine ⟨h1, h2, ?_, fun _ => ⟨n, rfl, by omega⟩, fun hne => absurd h4 hne⟩
          by_cases ht : r.titleKeywords = []
          · right
            intro hc
            exact h3 (by simp [ht]) (by simp [hc])
          · exact Or.inl ht
        · intro _; rfl
  · rw [Bool.and_eq_true] at h3
    push_neg at h3
    cases hl : r.bodyParagraphLimit with
    | some n =>
      show Except.error "body_paragraph_limit only applies to fixed paragraph range" =
          Except.ok () ↔ _
      constructor
      · intro h; cases h
      · rintro ⟨-, -, -, -, hnf⟩
        exact Option.noConfusion (hnf h4)
    | none =>
      show Except.ok () = Except.ok () ↔ _
      constructor
      · intro _
        refine ⟨h1, h2, ?_, fun hf => absurd hf h4, fun _ => rfl⟩
        by_cases ht : r.titleKeywords = []
        · right
          intro hc
          exact h3 (by simp [ht]) (by simp [hc])
        · exact Or.inl ht
      · intro _; rfl

/-- A concrete valid rule (the built-in originality-statement rule) used to
    witness C9. -/
def sampleSectionRule : SectionRule :=
  { key := "original_statement", displayName := "原创声明"
    titleKeywords := ["原创声明", "诚信声明"], contentKeywords := []
    titleStyleNames := [], position := .front, bodyRange := .untilNextTitle
    bodyParagraphLimit := none }

/-- Witness for C9: the sample rule satisfies the characterization, hence
    validates. -/
theorem claim_C9_witness : sampleSectionRule.validate = Except.ok () :=
  (claim_C9_section_rule_validation sampleSectionRule).mpr
    ⟨by decide, by decide, Or.inl (by decide),
      fun h => absurd h (by decide), fun _ => rfl⟩

/-- Python str.lower(); the source applies it to ASCII role/style names
    (CJK characters have no case), so ASCII lowering is the same function. -/
def pyLower (s : String) : String :=
  ⟨s.data.map Char.toLower⟩

/-- If `pre` is a prefix of `l`, the remainder after it. -/
def listIsPrefix : List Char → List Char → Option (List Char)
  | [], l => some l
  | _ :: _, [] => none
  | a :: as, b :: bs => if a = b then listIsPrefix as bs else none

/-- Whether `pre` begins `s` (Python str.startswith). -/
def strStartsWith (pre s : String) : Bool :=
  (listIsPrefix pre.data s.data).isSome

/-- Numeric value of a digit list. -/
def digitsVal (l : List Char) : Nat :=
  l.foldl (fun acc c => acc * 10 + (c.toNat - 48)) 0

/-- Matches the regex `[1-9][0-9]*` against the whole list and returns its
    value: a positive integer with no leading zero. -/
def posDigits : List Char → Option Nat
  | [] => none
  | c :: rest =>
    if c.isDigit ∧ c ≠ '0' ∧ rest.all (fun d => d.isDigit) then
      some (digitsVal (c :: rest))
    else none

/-- Matches `_TITLE_BODY_PATTERN` (src/template_parser.py):
    `^(title|body)_l([1-9][0-9]*)$` on an already-lowercased name; returns
    whether the prefix was `title` and the level. -/
def titleBodyMatch (lowerData : List Char) : Option (Bool × Nat) :=
  match listIsPrefix "title_l".data lowerData with
  | some rest => (posDigits rest).map (fun n => (true, n))
  | none =>
    match listIsPrefix "body_l".data lowerData with
    | some rest => (posDigits rest).map (fun n => (false, n))
    | none => none

/-- `_BASE_TITLE_ROLE` from src/template_parser.py. -/
def baseTitleRole : String := "title_L1"

/-- `_BASE_BODY_ROLE` from src/template_parser.py. -/
def baseBodyRole : String := "body_L1"

/-- `_ROLE_ALIASES` from src/template_parser.py. -/
def roleAliases : List (String × String) :=
  [("chapter_title", baseTitleRole), ("body", baseBodyRole)]

/-- `_SPECIAL_ROLES` from src/template_parser.py. -/
def specialRoles : List String :=
  ["document_title", "document_title_en", "cover_title", "cover_info",
   "abstract_title", "abstract_body", "abstract_en_title", "abstract_en_body",
   "reference_title", "reference_body", "keyword_line", "toc_title", "toc_body",
   "figure_caption", "figure_body", "table_caption", "table_body",
   "figure_note", "table_note", "footnote_text", "footnote_reference"]

/-- Embeds `_normalize_role` from src/template_parser.py. -/
def normalizeRole (role : String) : String :=
  let roleClean := pyStrip role
  if roleClean = "" then roleClean
  else
    let lower := pyLower roleClean
    match alistGet roleAliases lower with
    | some aliasRole => aliasRole
    | none =>
      match titleBodyMatch lower.data with
      | some (isTitleLevel, level) =>
        (if isTitleLevel then "title_L" else "body_L") ++ toString level
      | none => if lower ∈ specialRoles then lower else roleClean

/-- Embeds `_ROLE_GROUP_PATTERNS` matching (src/template_parser.py): the first
    pattern matching the (normalized) role name gives its exclusivity group.
    All patterns are anchored except the `cover_` prefix; IGNORECASE becomes
    matching on the lowered name. -/
def roleGroupOfName (roleName : String) : Option String :=
  let lower := pyLower roleName
  match titleBodyMatch lower.data with
  | some (true, _) => some "title"
  | some (false, _) => some "body"
  | none =>
    if lower = "document_title" then some "special_title"
    else if lower = "document_title_en" then some "special_title"
    else if lower = "cover_title" then some "cover"
    else if lower = "cover_info" then some "cover"
    else if lower = "abstract_title" then some "special_title"
    else if lower = "abstract_body" then some "special_body"
    else if lower = "abstract_en_title" then some "special_title"
    else if lower = "abstract_en_body" then some "special_body"
    else if lower = "reference_title" then some "special_title"
    else if lower = "reference_body" then some "special_body"
    else if lower = "keyword_line" then some "special_body"
    else if lower = "toc_title" then some "toc"
    else if lower = "toc_body" then some "toc"
    else if ((listIsPrefix "toc_body_l".data lower.data).bind posDigits).isSome then
      some "toc"
    else if (listIsPrefix "cover_".data lower.data).isSome then some "cover"
    else if lower = "figure_caption" then some "caption"
    else if lower = "figure_body" then some "special_body"
    else if lower = "table_caption" then some "caption"
    else if lower = "table_body" then some "special_body"
    else if lower = "figure_note" then some "note"
    else if lower = "table_note" then some "note"
    else if lower = "footnote_text" then some "note"
    else if lower = "footnote_reference" then some "note"
    else none

/-- Embeds `_resolve_role_group` from src/template_parser.py. -/
def resolveRoleGroup (role : String) : Option String :=
  let roleName := normalizeRole role
  if roleName = "" then none
  else roleGroupOfName roleName

/-- Embeds `StyleRule` from src/style_rule.py (field names kept modulo
    snake-case to camel-case). -/
structure StyleRule where
  role : String
  fontName : Option String := none
  fontNameAscii : Option String := none
  fontNameEastAsia : Option String := none
  fontNameHAnsi : Option String := none
  fontSizePt : Option Rat := none
  bold : Option Bool := none
  alignment : Option String := none
  lineSpacingRule : Option String := none
  lineSpacingValue : Option Rat := none
  lineSpacingUnit : Option String := none
  spaceBeforePt : Option Rat := none
  spaceAfterPt : Option Rat := none
  spaceBeforeValue : Option Rat := none
  spaceBeforeUnit : Option String := none
  spaceAfterValue : Option Rat := none
  spaceAfterUnit : Option String := none
  indentLeftPt : Option Rat := none
  indentRightPt : Option Rat := none
  indentFirstLinePt : Option Rat := none
  indentHangingPt : Option Rat := none
  missingFields : Option (List String) := none
  deriving Repr, DecidableEq

/-- The role-to-StyleRule dict of the parser, in insertion order. -/
abbrev RulesMap := List (String × StyleRule)

/-- Dict get on the rules map. -/
def rulesGet : RulesMap → String → Option StyleRule
  | [], _ => none
  | p :: ps, role => if p.1 = role then some p.2 else rulesGet ps role

/-- Dict assignment on the rules map: replace in place, else append. -/
def rulesSet (rs : RulesMap) (role : String) (v : StyleRule) : RulesMap :=
  if (rulesGet rs role).isSome then
    rs.map (fun p => if p.1 = role then (role, v) else p)
  else rs ++ [(role, v)]

/-- `StyleRule(role=role)`: the empty rule synthesized for a missing role. -/
def emptyRule (role : String) : StyleRule := { role := role }

/-- Embeds `_fill_missing_fields` (src/template_parser.py): every field other
    than `role` and `missing_fields` that is `None` on the target is taken
    from the defaults; set fields are never overwritten. -/
def fillMissingFields (target defaults : StyleRule) : StyleRule :=
  { role := target.role
    fontName := target.fontName <|> defaults.fontName
    fontNameAscii := target.fontNameAscii <|> defaults.fontNameAscii
    fontNameEastAsia := target.fontNameEastAsia <|> defaults.fontNameEastAsia
    fontNameHAnsi := target.fontNameHAnsi <|> defaults.fontNameHAnsi
    fontSizePt := target.fontSizePt <|> defaults.fontSizePt
    bold := target.bold <|> defaults.bold
    alignment := target.alignment <|> defaults.alignment
    lineSpacingRule := target.lineSpacingRule <|> defaults.lineSpacingRule
    lineSpacingValue := target.lineSpacingValue <|> defaults.lineSpacingValue
    lineSpacingUnit := target.lineSpacingUnit <|> defaults.lineSpacingUnit
    spaceBeforePt := target.spaceBeforePt <|> defaults.spaceBeforePt
    spaceAfterPt := target.spaceAfterPt <|> defaults.spaceAfterPt
    spaceBeforeValue := target.spaceBeforeValue <|> defaults.spaceBeforeValue
    spaceBeforeUnit := target.spaceBeforeUnit <|> defaults.spaceBeforeUnit
    spaceAfterValue := target.spaceAfterValue <|> defaults.spaceAfterValue
    spaceAfterUnit := target.spaceAfterUnit <|> defaults.spaceAfterUnit
    indentLeftPt := target.indentLeftPt <|> defaults.indentLeftPt
    indentRightPt := target.indentRightPt <|> defaults.indentRightPt
    indentFirstLinePt := target.indentFirstLinePt <|> defaults.indentFirstLinePt
    indentHangingPt := target.indentHangingPt <|> defaults.indentHangingPt
    missingFields := target.missingFields }

/-- Embeds `_default_rule` (src/template_parser.py): the hard-coded terminal
    defaults for the base title role, the base body role, and everything else
    (role-agnostic default: zero indentation, no font opinion). -/
def defaultRule (role : String) : StyleRule :=
  let normalized := normalizeRole role
  if normalized = baseTitleRole then
    { role := role
      fontName := some "宋体"
      fontNameEastAsia := some "宋体"
      fontSizePt := some 16
      bold := some true
      alignment := some "CENTER"
      lineSpacingRule := some "ONE_POINT_FIVE"
      lineSpacingValue := some (3 / 2)
      lineSpacingUnit := some "MULTIPLE"
      spaceBeforePt := some 12
      spaceAfterPt := some 12
      spaceBeforeValue := some 12
      spaceBeforeUnit := some "PT"
      spaceAfterValue := some 12
      spaceAfterUnit := some "PT"
      indentLeftPt := some 0
      indentRightPt := some 0
      indentFirstLinePt := some 0
      indentHangingPt := some 0 }
  else if normalized = baseBodyRole then
    { role := role
      fontName := some "宋体"
      fontNameEastAsia := some "宋体"
      fontSizePt := some 12
      bold := some false
      alignment := some "JUSTIFY"
      lineSpacingRule := some "ONE_POINT_FIVE"
      lineSpacingValue := some (3 / 2)
      lineSpacingUnit := some "MULTIPLE"
      spaceBeforePt := some 0
      spaceAfterPt := some 0
      spaceBeforeValue := some 0
      spaceBeforeUnit := some "PT"
      spaceAfterValue := some 0
      spaceAfterUnit := some "PT"
      indentLeftPt := some 0
      indentRightPt := some 0
      indentFirstLinePt := some 0
      indentHangingPt := some 0 }
  else
    { role := role
      indentLeftPt := some 0
      indentRightPt := some 0
      indentFirstLinePt := some 0
      indentHangingPt := some 0 }

/-- `REQUIRED_FIELDS` check, embedding `_missing_required_fields`
    (src/template_parser.py / src/style_rule.py). -/
def missingRequiredFields (r : StyleRule) : List String :=
  ([("font_name", r.fontName.isNone),
    ("font_size_pt", r.fontSizePt.isNone),
    ("bold", r.bold.isNone),
    ("alignment", r.alignment.isNone),
    ("line_spacing_rule", r.lineSpacingRule.isNone),
    ("line_spacing_value", r.lineSpacingValue.isNone),
    ("line_spacing_unit", r.lineSpacingUnit.isNone),
    ("space_before_pt", r.spaceBeforePt.isNone),
    ("space_after_pt", r.spaceAfterPt.isNone)]).filterMap
    (fun p => if p.2 then some p.1 else none)

/-- `config.DEFAULT_REQUIRED_ROLES`. -/
def defaultRequiredRoles : List String := [baseTitleRole, baseBodyRole]

/-- `config.DEFAULT_REQUIRED_ON_PRESENCE_MAP`. -/
def defaultRequiredOnPresenceMap : List (String × String) :=
  [("abstract_title", "abstract_body"),
   ("abstract_en_title", "abstract_en_body"),
   ("reference_title", "reference_body")]

/-- Embeds `_normalize_required_roles` (src/template_parser.py):
    normalize each role, drop duplicates, keep first-seen order. -/
def normalizeRequiredRoles (requiredRoles : Option (List String)) : List String :=
  let roles := requiredRoles.getD defaultRequiredRoles
  (roles.foldl
    (fun acc role =>
      let rn := normalizeRole role
      if rn ∈ acc then acc else acc ++ [rn])
    [])

/-- Python dict assignment on a string-to-string dict. -/
def insertOrReplace (l : List (String × String)) (k v : String) :
    List (String × String) :=
  if (l.find? (fun p => p.1 == k)).isSome then
    l.map (fun p => if p.1 == k then (k, v) else p)
  else l ++ [(k, v)]

theorem rulesGet_cons (p : String × StyleRule) (ps : RulesMap) (r : String) :
    rulesGet (p :: ps) r = if p.1 = r then some p.2 else rulesGet ps r := rfl

/-- Embeds the loop of `_normalize_required_on_presence_map`
    (src/template_parser.py); the `isinstance` checks are carried by typing. -/
def normalizeROPAux : List (String × String) → List (String × String) →
    Except String (List (String × String))
  | acc, [] => .ok acc
  | acc, (k, v) :: rest =>
    let kn := normalizeRole k
    let vn := normalizeRole v
    if (resolveRoleGroup kn).isNone ∨ (resolveRoleGroup vn).isNone then
      .error ("required_on_presence_map must use valid role names, got " ++
        k ++ " -> " ++ v)
    else normalizeROPAux (insertOrReplace acc kn vn) rest

/-- Embeds `_normalize_required_on_presence_map` (src/template_parser.py):
    `None` falls back to the configured default map. -/
def normalizeROPMap (m : Option (List (String × String))) :
    Except String (List (String × String)) :=
  normalizeROPAux [] (m.getD defaultRequiredOnPresenceMap)

/-- Embeds `_conditional_required_roles` (src/template_parser.py): the targets
    of map entries whose trigger role is present among the rules, de-duplicated
    in map order. -/
def conditionalRequiredRoles (rules : RulesMap)
    (m : Option (List (String × String))) : Except String (List String) :=
  (normalizeROPMap m).map
    (fun normalized =>
      normalized.foldl
        (fun targets p =>
          if (rulesGet rules p.1).isSome ∧ p.2 ∉ targets then targets ++ [p.2]
          else targets)
        [])

/-- Embeds the inner `_fill_from_fallback` of `_apply_fallbacks`
    (src/template_parser.py).  The Python `is not` identity checks between a
    rules-map value and the target are key-equality here (the pipeline stores
    one fresh object per role key, and the global body rule is always a fresh
    object, never a rules-map value). -/
def fillFromFallback (conditionalTargets : List String) (rules : RulesMap)
    (globalBody : Option StyleRule) (role : String) (target : StyleRule) :
    StyleRule :=
  let normalized := normalizeRole role
  if role ∈ conditionalTargets then
    let t1 :=
      match rulesGet rules baseBodyRole with
      | some base => if role = baseBodyRole then target else fillMissingFields target base
      | none => target
    fillMissingFields t1 (defaultRule baseBodyRole)
  else if strStartsWith "title_L" normalized = true ∧ normalized ≠ baseTitleRole then
    let t1 :=
      match rulesGet rules baseTitleRole with
      | some base => if role = baseTitleRole then target else fillMissingFields target base
      | none => target
    fillMissingFields t1 (defaultRule baseTitleRole)
  else if strStartsWith "body_L" normalized = true then
    let t1 :=
      match globalBody with
      | some gb => fillMissingFields target gb
      | none => target
    fillMissingFields t1 (defaultRule baseBodyRole)
  else if normalized = baseTitleRole then
    fillMissingFields target (defaultRule baseTitleRole)
  else if normalized = baseBodyRole then
    let t1 :=
      match globalBody with
      | some gb => fillMissingFields target gb
      | none => target
    fillMissingFields t1 (defaultRule baseBodyRole)
  else
    fillMissingFields target (defaultRule normalized)

/-- Embeds `_apply_fallbacks` (src/template_parser.py).  The log-state
    warnings are diagnostics only and are not modelled; the iteration order of
    the conditional-target set is its first-seen map order. -/
def applyFallbacks (rules : RulesMap) (allowFallback strict : Bool)
    (requiredRoles : Option (List String))
    (ropMap : Option (List (String × String)))
    (globalBody : Option StyleRule) : Except String RulesMap :=
  if strict then .ok rules
  else
    match conditionalRequiredRoles rules ropMap with
    | .error e => .error e
    | .ok conditionalTargets =>
      let required0 := normalizeRequiredRoles requiredRoles
      let required :=
        required0 ++ conditionalTargets.filter (fun r => r ∉ required0)
      let step1 := required.foldl
        (fun rs role =>
          let rs1 :=
            if (rulesGet rs role).isSome then rs else rs ++ [(role, emptyRule role)]
          if allowFallback then
            match rulesGet rs1 role with
            | some t =>
              rulesSet rs1 role (fillFromFallback conditionalTargets rs1 globalBody role t)
            | none => rs1
          else rs1)
        rules
      let step2 :=
        if allowFallback then
          (step1.map Prod.fst).foldl
            (fun rs role =>
              match rulesGet rs role with
              | some t =>
                rulesSet rs role (fillFromFallback conditionalTargets rs globalBody role t)
              | none => rs)
            step1
        else step1
      .ok step2

/-- Embeds `_validate_strict` (src/template_parser.py). -/
def validateStrict (rules : RulesMap) (requiredRoles : Option (List String))
    (ropMap : Option (List (String × String))) : Except String Unit :=
  match conditionalRequiredRoles rules ropMap with
  | .error e => .error e
  | .ok conditionalTargets =>
    let required := normalizeRequiredRoles requiredRoles
    let requiredAll :=
      (required ++ conditionalTargets).foldl
        (fun acc r => if r ∈ acc then acc else acc ++ [r]) []
    let missingRoles := requiredAll.filter (fun r => (rulesGet rules r).isNone)
    if missingRoles ≠ [] then
      .error ("strict mode missing roles: " ++ String.intercalate ", " missingRoles)
    else
      let errors := rules.filterMap
        (fun p =>
          let missing := missingRequiredFields p.2
          if missing ≠ [] then
            some (p.1 ++ ": " ++ String.intercalate ", " missing)
          else none)
      if errors ≠ [] then
        .error ("strict mode missing fields: " ++ String.intercalate "; " errors)
      else .ok ()

/-- The tail of `TemplateParser._parse_template` (src/template_parser.py,
    lines 673-688): apply fallbacks, then strict validation; an error aborts
    the parse with no output. -/
def finalizeRules (rules : RulesMap) (allowFallback strict : Bool)
    (requiredRoles : Option (List String))
    (ropMap : Option (List (String × String)))
    (globalBody : Option StyleRule) : Except String RulesMap :=
  match applyFallbacks rules allowFallback strict requiredRoles ropMap globalBody with
  | .error e => .error e
  | .ok out =>
    if strict then
      match validateStrict out requiredRoles ropMap with
      | .error e => .error e
      | .ok _ => .ok out
    else .ok out

/-- One optional field is preserved: if set before, same value after. -/
def fieldPreserved {α : Type} (x y : Option α) : Prop :=
  ∀ v, x = some v → y = some v

/-- The string-valued StyleRule fields other than role and missing_fields. -/
def strFields : List (StyleRule → Option String) :=
  [StyleRule.fontName, StyleRule.fontNameAscii, StyleRule.fontNameEastAsia,
   StyleRule.fontNameHAnsi, StyleRule.alignment, StyleRule.lineSpacingRule,
   StyleRule.lineSpacingUnit, StyleRule.spaceBeforeUnit, StyleRule.spaceAfterUnit]

/-- The numeric StyleRule fields. -/
def ratFields : List (StyleRule → Option Rat) :=
  [StyleRule.fontSizePt, StyleRule.lineSpacingValue, StyleRule.spaceBeforePt,
   StyleRule.spaceAfterPt, StyleRule.spaceBeforeValue, StyleRule.spaceAfterValue,
   StyleRule.indentLeftPt, StyleRule.indentRightPt, StyleRule.indentFirstLinePt,
   StyleRule.indentHangingPt]

/-- The boolean StyleRule fields. -/
def boolFields : List (StyleRule → Option Bool) :=
  [StyleRule.bold]

/-- Every already-set formatting field of the first rule keeps its value in
    the second (the C10 frame property, per field). -/
def stylePreserves (r r' : StyleRule) : Prop :=
  (∀ f ∈ strFields, fieldPreserved (f r) (f r')) ∧
  (∀ f ∈ ratFields, fieldPreserved (f r) (f r')) ∧
  (∀ f ∈ boolFields, fieldPreserved (f r) (f r'))

theorem stylePreserves_refl (r : StyleRule) : stylePreserves r r :=
  ⟨fun _ _ _ h => h, fun _ _ _ h => h, fun _ _ _ h => h⟩

theorem stylePreserves_trans {a b c : StyleRule} (h1 : stylePreserves a b)
    (h2 : stylePreserves b c) : stylePreserves a c :=
  ⟨fun f hf v hv => h2.1 f hf v (h1.1 f hf v hv),
   fun f hf v hv => h2.2.1 f hf v (h1.2.1 f hf v hv),
   fun f hf v hv => h2.2.2 f hf v (h1.2.2 f hf v hv)⟩

theorem fillMissingFields_preserves (t d : StyleRule) :
    stylePreserves t (fillMissingFields t d) := by
  refine ⟨?_, ?_, ?_⟩ <;> intro f hf <;> fin_cases hf <;>
    intro v hv <;> simp only [fillMissingFields] <;> rw [hv] <;> rfl

theorem fillFromFallback_preserves (ct : List String) (rules : RulesMap)
    (gb : Option StyleRule) (role : String) (t : StyleRule) :
    stylePreserves t (fillFromFallback ct rules gb role t) := by
  have hfill : ∀ t1 d, stylePreserves t t1 → stylePreserves t (fillMissingFields t1 d) :=
    fun t1 d h => stylePreserves_trans h (fillMissingFields_preserves t1 d)
  have hbase : ∀ (o : Option StyleRule) (c : Prop) [Decidable c],
      stylePreserves t
        (match o with
         | some base => if c then t else fillMissingFields t base
         | none => t) := by
    intro o c hc
    cases o with
    | none => exact stylePreserves_refl t
    | some base =>
      show stylePreserves t (if c then t else fillMissingFields t base)
      by_cases hr : c
      · rw [if_pos hr]; exact stylePreserves_refl t
      · rw [if_neg hr]; exact fillMissingFields_preserves t base
  have hgb : ∀ (o : Option StyleRule),
      stylePreserves t
        (match o with
         | some g => fillMissingFields t g
         | none => t) := by
    intro o
    cases o with
    | none => exact stylePreserves_refl t
    | some g => exact fillMissingFields_preserves t g
  simp only [fillFromFallback]
  by_cases h1 : role ∈ ct
  · rw [if_pos h1]
    exact hfill _ _ (hbase _ _)
  · rw [if_neg h1]
    by_cases h2 : strStartsWith "title_L" (normalizeRole role) = true ∧
        normalizeRole role ≠ baseTitleRole
    · rw [if_pos h2]
      exact hfill _ _ (hbase _ _)
    · rw [if_neg h2]
      by_cases h3 : strStartsWith "body_L" (normalizeRole role) = true
      · rw [if_pos h3]
        exact hfill _ _ (hgb _)
      · rw [if_neg h3]
        by_cases h4 : normalizeRole role = baseTitleRole
        · rw [if_pos h4]; exact fillMissingFields_preserves t _
        · rw [if_neg h4]
          by_cases h5 : normalizeRole role = baseBodyRole
          · rw [if_pos h5]
            exact hfill _ _ (hgb _)
          · rw [if_neg h5]; exact fillMissingFields_preserves t _

theorem rulesGet_append_one_ne (rs : RulesMap) (role r' : String) (v : StyleRule)
    (h : r' ≠ role) : rulesGet (rs ++ [(role, v)]) r' = rulesGet rs r' := by
  induction rs with
  | nil =>
    simp only [List.nil_append, rulesGet]
    rw [if_neg (fun hc => h (hc.symm))]
  | cons p ps ih =>
    simp only [List.cons_append, rulesGet_cons]
    by_cases hp : p.1 = r'
    · rw [if_pos hp, if_pos hp]
    · rw [if_neg hp, if_neg hp]
      exact ih

theorem rulesGet_map_replace_ne (rs : RulesMap) (role r' : String) (v : StyleRule)
    (h : r' ≠ role) :
    rulesGet (rs.map (fun p => if p.1 = role then (role, v) else p)) r' =
      rulesGet rs r' := by
  induction rs with
  | nil => rfl
  | cons p ps ih =>
    simp only [List.map_cons]
    by_cases hp : p.1 = role
    · rw [if_pos hp, rulesGet_cons, rulesGet_cons]
      have h1 : ¬((role, v).1 = r') := fun hc => h hc.symm
      rw [if_neg h1, if_neg (fun hc : p.1 = r' => h (hp ▸ hc).symm)]
      exact ih
    · rw [if_neg hp, rulesGet_cons, rulesGet_cons]
      by_cases hq : p.1 = r'
      · rw [if_pos hq, if_pos hq]
      · rw [if_neg hq, if_neg hq]
        exact ih

theorem rulesGet_set_ne (rs : RulesMap) (role r' : String) (v : StyleRule)
    (h : r' ≠ role) : rulesGet (rulesSet rs role v) r' = rulesGet rs r' := by
  unfold rulesSet
  split
  · exact rulesGet_map_replace_ne rs role r' v h
  · exact rulesGet_append_one_ne rs role r' v h

theorem rulesGet_set_self (rs : RulesMap) (role : String) (v : StyleRule)
    (h : (rulesGet rs role).isSome) :
    rulesGet (rulesSet rs role v) role = some v := by
  unfold rulesSet
  rw [if_pos h]
  induction rs with
  | nil => cases h
  | cons p ps ih =>
    simp only [List.map_cons]
    by_cases hp : p.1 = role
    · rw [if_pos hp, rulesGet_cons]
      rw [if_pos rfl]
    · rw [if_neg hp, rulesGet_cons, if_neg hp]
      apply ih
      rw [rulesGet_cons, if_neg hp] at h
      exact h

theorem rulesGet_fun {rs : RulesMap} {role : String} {a b : StyleRule}
    (ha : rulesGet rs role = some a) (hb : rulesGet rs role = some b) : a = b := by
  rw [ha] at hb
  exact Option.some_inj.mp hb

/-- Folding preserves a predicate on the rules map. -/
theorem foldl_preserve {α : Type} (P : RulesMap → Prop) (f : RulesMap → α → RulesMap) :
    ∀ (l : List α) (init : RulesMap), P init → (∀ rs a, P rs → P (f rs a)) →
      P (l.foldl f init) := by
  intro l
  induction l with
  | nil => intro init h _; exact h
  | cons a as ih => intro init h hstep; exact ih (f init a) (hstep init a h) hstep

/-- C10: the fallback pass never overwrites existing formatting — every rule
    present before `_apply_fallbacks` is still present afterwards and each of
    its formatting fields (everything but role and missing_fields) that was
    set keeps its value; only unset fields are ever assigned. -/
theorem claim_C10_fallback_never_overwrites (rules : RulesMap)
    (allowFallback strict : Bool) (requiredRoles : Option (List String))
    (ropMap : Option (List (String × String))) (globalBody : Option StyleRule)
    (out : RulesMap)
    (hout : applyFallbacks rules allowFallback strict requiredRoles ropMap globalBody =
      Except.ok out) :
    ∀ role rule, rulesGet rules role = some rule →
      ∃ rule', rulesGet out role = some rule' ∧ stylePreserves rule rule' := by
  classical
  unfold applyFallbacks at hout
  by_cases hstrict : strict = true
  · rw [if_pos hstrict] at hout
    cases hout
    intro role rule h
    exact ⟨rule, h, stylePreserves_refl rule⟩
  · rw [if_neg hstrict] at hout
    cases hct : conditionalRequiredRoles rules ropMap with
    | error e => rw [hct] at hout; cases hout
    | ok conditionalTargets =>
      rw [hct] at hout
      simp only [Except.ok.injEq] at hout
      set P : RulesMap → Prop := fun rs =>
        ∀ role rule, rulesGet rules role = some rule →
          ∃ rule', rulesGet rs role = some rule' ∧ stylePreserves rule rule' with hP
      have hinit : P rules := fun role rule h => ⟨rule, h, stylePreserves_refl rule⟩
      have hstep1 : ∀ rs (a : String), P rs → P
          ((fun rs role =>
            let rs1 :=
              if (rulesGet rs role).isSome then rs else rs ++ [(role, emptyRule role)]
            if allowFallback then
              match rulesGet rs1 role with
              | some t =>
                rulesSet rs1 role
                  (fillFromFallback conditionalTargets rs1 globalBody role t)
              | none => rs1
            else rs1) rs a) := by
        intro rs a hPrs
        simp only []
        set rs1 := if (rulesGet rs a).isSome then rs else rs ++ [(a, emptyRule a)] with hrs1
        have hPrs1 : P rs1 := by
          intro role rule h
          rcases hPrs role rule h with ⟨r1, hr1, hp1⟩
          rw [hrs1]
          split
          · exact ⟨r1, hr1, hp1⟩
          · by_cases hr : role = a
            · subst hr
              exact ⟨r1, by
                have : (rulesGet rs role).isSome := by rw [hr1]; rfl
                simp_all, hp1⟩
            · exact ⟨r1, by rw [rulesGet_append_one_ne rs a role _ hr]; exact hr1, hp1⟩
        by_cases haf : allowFallback = true
        · rw [if_pos haf]
          cases ht : rulesGet rs1 a with
          | none => exact hPrs1
          | some t =>
            intro role rule h
            rcases hPrs1 role rule h with ⟨r1, hr1, hp1⟩
            by_cases hr : role = a
            · subst hr
              have hteq : r1 = t := rulesGet_fun hr1 ht
              subst hteq
              refine ⟨fillFromFallback conditionalTargets rs1 globalBody role r1,
                ?_, stylePreserves_trans hp1
                  (fillFromFallback_preserves conditionalTargets rs1 globalBody role r1)⟩
              exact rulesGet_set_self rs1 role _ (by rw [hr1]; rfl)
            · exact ⟨r1, by rw [rulesGet_set_ne rs1 a role _ hr]; exact hr1, hp1⟩
        · rw [if_neg haf]
          exact hPrs1
      have hstep2 : ∀ rs (a : String), P rs → P
          ((fun rs role =>
            match rulesGet rs role with
            | some t =>
              rulesSet rs role (fillFromFallback conditionalTargets rs globalBody role t)
            | none => rs) rs a) := by
        intro rs a hPrs
        simp only []
        cases ht : rulesGet rs a with
        | none => exact hPrs
        | some t =>
          intro role rule h
          rcases hPrs role rule h with ⟨r1, hr1, hp1⟩
          by_cases hr : role = a
          · subst hr
            have hteq : r1 = t := rulesGet_fun hr1 ht
            subst hteq
            refine ⟨fillFromFallback conditionalTargets rs globalBody role r1,
              ?_, stylePreserves_trans hp1
                (fillFromFallback_preserves conditionalTargets rs globalBody role r1)⟩
            exact rulesGet_set_self rs role _ (by rw [hr1]; rfl)
          · exact ⟨r1, by rw [rulesGet_set_ne rs a role _ hr]; exact hr1, hp1⟩
      have hP1 : P (List.foldl _ rules
          (normalizeRequiredRoles requiredRoles ++
            conditionalTargets.filter
              (fun r => r ∉ normalizeRequiredRoles requiredRoles))) :=
        foldl_preserve P _ _ rules hinit hstep1
      rw [← hout]
      by_cases haf : allowFallback = true
      · rw [if_pos haf]
        exact foldl_preserve P _ _ _ hP1 hstep2
      · rw [if_neg haf]
        exact hP1

/-- Start rule for the C10 witness: alignment already set. -/
def c10Start : StyleRule := { role := "body_L1", alignment := some "LEFT" }

/-- Witness for C10: the preset alignment survives the fallback pass. -/
theorem claim_C10_witness :
    ∃ out, applyFallbacks [("body_L1", c10Start)] true false none (some []) none =
        Except.ok out ∧
      ∃ rule', rulesGet out "body_L1" = some rule' ∧ stylePreserves c10Start rule' := by
  refine ⟨_, rfl, ?_⟩
  exact claim_C10_fallback_never_overwrites [("body_L1", c10Start)] true false none
    (some []) none _ rfl "body_L1" c10Start rfl

/-- A global body candidate rule carrying a font size that differs from the
    hard-coded body default. -/
def globalBodyTen : StyleRule :=
  { role := "_global_body_candidate", fontSizePt := some (21 / 2) }

/-- Counterexample for C2: the claim says the base role body_L1 falls straight
    to its hard-coded default (size 12), but with a global body candidate
    present the code fills body_L1 from the global body candidate first, so
    its size becomes 10.5. -/
theorem claim_C2_counterexample :
    ∃ out,
      applyFallbacks [("body_L1", emptyRule "body_L1")] true false none (some [])
          (some globalBodyTen) = Except.ok out ∧
        ∃ r, rulesGet out "body_L1" = some r ∧
          r.fontSizePt = some (21 / 2) ∧
          (defaultRule baseBodyRole).fontSizePt = some 12 ∧
          ((21 : Rat) / 2) ≠ 12 := by
  refine ⟨_, rfl, _, rfl, rfl, rfl, by norm_num⟩

/-- The amended C2 fallback chain, written from the amended claim's words:
    the ordered list of donor rules folded over a role's unset fields.
    Required-on-presence targets draw from the resolved body_L1 rule then the
    body default; title_L{k} with k>1 draws from the resolved title_L1 rule
    then the title default; every body_L{k} — including body_L1 — draws from
    the global body candidate (when present) then the body default; title_L1
    falls straight to the title default; every other role falls straight to
    the role-agnostic default. -/
def fallbackChainSpec (conditionalTargets : List String) (rules : RulesMap)
    (globalBody : Option StyleRule) (role : String) : List StyleRule :=
  let normalized := normalizeRole role
  if role ∈ conditionalTargets then
    (match rulesGet rules baseBodyRole with
     | some base => if role = baseBodyRole then [] else [base]
     | none => []) ++ [defaultRule baseBodyRole]
  else if strStartsWith "title_L" normalized = true ∧ normalized ≠ baseTitleRole then
    (match rulesGet rules baseTitleRole with
     | some base => if role = baseTitleRole then [] else [base]
     | none => []) ++ [defaultRule baseTitleRole]
  else if strStartsWith "body_L" normalized = true then
    (match globalBody with
     | some gb => [gb]
     | none => []) ++ [defaultRule baseBodyRole]
  else if normalized = baseTitleRole then [defaultRule baseTitleRole]
  else if normalized = baseBodyRole then
    (match globalBody with
     | some gb => [gb]
     | none => []) ++ [defaultRule baseBodyRole]
  else [defaultRule normalized]

/-- C2 (amended): the per-role fill step of the fallback engine equals folding
    `_fill_missing_fields` over the family-specific chain described by the
    amended claim. -/
theorem claim_C2_amended_fallback_chain (ct : List String) (rules : RulesMap)
    (gb : Option StyleRule) (role : String) (target : StyleRule) :
    fillFromFallback ct rules gb role target =
      (fallbackChainSpec ct rules gb role).foldl fillMissingFields target := by
  simp only [fillFromFallback, fallbackChainSpec]
  by_cases h1 : role ∈ ct
  · rw [if_pos h1, if_pos h1]
    cases rulesGet rules baseBodyRole with
    | none => rfl
    | some base =>
      show fillMissingFields
          (if role = baseBodyRole then target else fillMissingFields target base)
          (defaultRule baseBodyRole) =
        List.foldl fillMissingFields target
          ((if role = baseBodyRole then ([] : List StyleRule) else [base]) ++
            [defaultRule baseBodyRole])
      by_cases hr : role = baseBodyRole
      · rw [if_pos hr, if_pos hr]
        rfl
      · rw [if_neg hr, if_neg hr]
        rfl
  · rw [if_neg h1, if_neg h1]
    by_cases h2 : strStartsWith "title_L" (normalizeRole role) = true ∧
        normalizeRole role ≠ baseTitleRole
    · rw [if_pos h2, if_pos h2]
      cases rulesGet rules baseTitleRole with
      | none => rfl
      | some base =>
        show fillMissingFields
            (if role = baseTitleRole then target else fillMissingFields target base)
            (defaultRule baseTitleRole) =
          List.foldl fillMissingFields target
            ((if role = baseTitleRole then ([] : List StyleRule) else [base]) ++
              [defaultRule baseTitleRole])
        by_cases hr : role = baseTitleRole
        · rw [if_pos hr, if_pos hr]
          rfl
        · rw [if_neg hr, if_neg hr]
          rfl
    · rw [if_neg h2, if_neg h2]
      by_cases h3 : strStartsWith "body_L" (normalizeRole role) = true
      · rw [if_pos h3, if_pos h3]
        cases gb with
        | none => rfl
        | some g => rfl
      · rw [if_neg h3, if_neg h3]
        by_cases h4 : normalizeRole role = baseTitleRole
        · rw [if_pos h4, if_pos h4]
          rfl
        · rw [if_neg h4, if_neg h4]
          by_cases h5 : normalizeRole role = baseBodyRole
          · rw [if_pos h5, if_pos h5]
            cases gb with
            | none => rfl
            | some g => rfl
          · rw [if_neg h5, if_neg h5]
            rfl

/-- Membership in the order-preserving de-duplicating fold. -/
theorem mem_dedup_fold {α : Type} [DecidableEq α] (l : List α) :
    ∀ (acc : List α) (x : α),
      (x ∈ l.foldl (fun acc r => if r ∈ acc then acc else acc ++ [r]) acc) ↔
        (x ∈ acc ∨ x ∈ l) := by
  induction l with
  | nil => intro acc x; simp
  | cons r rs ih =>
    intro acc x
    simp only [List.foldl_cons]
    rw [ih]
    by_cases hr : r ∈ acc
    · rw [if_pos hr]
      constructor
      · rintro (h | h)
        · exact Or.inl h
        · exact Or.inr (List.mem_cons_of_mem _ h)
      · rintro (h | h)
        · exact Or.inl h
        · rcases List.mem_cons.mp h with rfl | h'
          · exact Or.inl hr
          · exact Or.inr h'
    · rw [if_neg hr]
      constructor
      · rintro (h | h)
        · rcases List.mem_append.mp h with h' | h'
          · exact Or.inl h'
          · exact Or.inr (List.mem_cons.mpr (Or.inl (List.mem_singleton.mp h')))
        · exact Or.inr (List.mem_cons_of_mem _ h)
      · rintro (h | h)
        · exact Or.inl (List.mem_append.mpr (Or.inl h))
        · rcases List.mem_cons.mp h with rfl | h'
          · exact Or.inl (List.mem_append.mpr (Or.inr (List.mem_singleton.mpr rfl)))
          · exact Or.inr h'

/-- C4: with strict on, `_apply_fallbacks` returns the rules untouched (no
    back-filling); `_validate_strict` succeeds exactly when every required
    role (configured plus triggered required-on-presence targets) is present
    and no emitted rule has an unset required field; and a rules map lacking
    body_L1 makes the strict parse tail fail with an error, producing no
    output. -/
theorem claim_C4_strict_contract :
    (∀ (rules : RulesMap) (allowFallback : Bool)
      (requiredRoles : Option (List String))
      (ropMap : Option (List (String × String))) (globalBody : Option StyleRule),
      applyFallbacks rules allowFallback true requiredRoles ropMap globalBody =
        Except.ok rules) ∧
    (∀ (rules : RulesMap) (requiredRoles : Option (List String))
      (ropMap : Option (List (String × String))) (targets : List String),
      conditionalRequiredRoles rules ropMap = Except.ok targets →
        (validateStrict rules requiredRoles ropMap = Except.ok () ↔
          ((∀ role ∈ normalizeRequiredRoles requiredRoles ++ targets,
              (rulesGet rules role).isSome) ∧
            ∀ p ∈ rules, missingRequiredFields p.2 = []))) ∧
    (∀ (rules : RulesMap) (allowFallback : Bool) (globalBody : Option StyleRule),
      rulesGet rules baseBodyRole = none →
        ∃ e, finalizeRules rules allowFallback true none none globalBody =
          Except.error e) := by
  refine ⟨?_, ?_, ?_⟩
  · intro rules allowFallback requiredRoles ropMap globalBody
    rfl
  · intro rules requiredRoles ropMap targets hct
    unfold validateStrict
    rw [hct]
    simp only []
    by_cases hmr :
        ((normalizeRequiredRoles requiredRoles ++ targets).foldl
          (fun acc r => if r ∈ acc then acc else acc ++ [r]) []).filter
          (fun r => (rulesGet rules r).isNone) ≠ []
    · rw [if_pos hmr]
      constructor
      · intro h; cases h
      · rintro ⟨hall, -⟩
        exfalso
        apply hmr
        apply List.filter_eq_nil_iff.mpr
        intro r hr
        have hmem : r ∈ normalizeRequiredRoles requiredRoles ++ targets := by
          rcases (mem_dedup_fold _ [] r).mp hr with h | h
          · cases h
          · exact h
        have := hall r hmem
        simp only [Option.isNone_iff_eq_none, decide_eq_true_eq]
        intro hc
        rw [hc] at this
        cases this
    · rw [if_neg hmr]
      push_neg at hmr
      by_cases herr :
          (rules.filterMap
            (fun p =>
              let missing := missingRequiredFields p.2
              if missing ≠ [] then
                some (p.1 ++ ": " ++ String.intercalate ", " missing)
              else none)) ≠ []
      · rw [if_pos herr]
        constructor
        · intro h; cases h
        · rintro ⟨-, hfields⟩
          exfalso
          apply herr
          apply List.filterMap_eq_nil_iff.mpr
          intro p hp
          have hm : missingRequiredFields p.2 = [] := hfields p hp
          show (if missingRequiredFields p.2 ≠ [] then
              some (p.1 ++ ": " ++ String.intercalate ", " (missingRequiredFields p.2))
            else none) = none
          rw [if_neg (fun hc => hc hm)]
      · rw [if_neg herr]
        push_neg at herr
        constructor
        · intro _
          constructor
          · intro role hrole
            by_cases hn : (rulesGet rules role).isSome
            · exact hn
            · exfalso
              have hmem : role ∈ (normalizeRequiredRoles requiredRoles ++ targets).foldl
                  (fun acc r => if r ∈ acc then acc else acc ++ [r]) [] :=
                (mem_dedup_fold _ [] role).mpr (Or.inr hrole)
              have hfil : role ∈ ((normalizeRequiredRoles requiredRoles ++ targets).foldl
                  (fun acc r => if r ∈ acc then acc else acc ++ [r]) []).filter
                  (fun r => (rulesGet rules r).isNone) := by
                apply List.mem_filter.mpr
                refine ⟨hmem, ?_⟩
                simp only [Option.isNone_iff_eq_none, decide_eq_true_eq]
                cases hg : rulesGet rules role
                · rfl
                · rw [hg] at hn; exact absurd rfl hn
              rw [hmr] at hfil
              cases hfil
          · intro p hp
            have hthis := List.filterMap_eq_nil_iff.mp herr p hp
            by_cases hm : missingRequiredFields p.2 = []
            · exact hm
            · exfalso
              have hred : (if missingRequiredFields p.2 ≠ [] then
                  some (p.1 ++ ": " ++ String.intercalate ", " (missingRequiredFields p.2))
                else none) = none := hthis
              rw [if_pos hm] at hred
              cases hred
        · intro _
          rfl
  · intro rules allowFallback globalBody hnone
    unfold finalizeRules
    rw [show applyFallbacks rules allowFallback true none none globalBody =
      Except.ok rules from rfl]
    simp only []
    unfold validateStrict
    rw [show conditionalRequiredRoles rules none =
      Except.ok (defaultRequiredOnPresenceMap.foldl
        (fun targets p =>
          if (rulesGet rules p.1).isSome ∧ p.2 ∉ targets then targets ++ [p.2]
          else targets) []) from rfl]
    simp only []
    set targets := defaultRequiredOnPresenceMap.foldl
      (fun targets p =>
        if (rulesGet rules p.1).isSome ∧ p.2 ∉ targets then targets ++ [p.2]
        else targets) [] with htargets
    have hmem : baseBodyRole ∈ (normalizeRequiredRoles none ++ targets).foldl
        (fun acc r => if r ∈ acc then acc else acc ++ [r]) [] := by
      apply (mem_dedup_fold _ [] baseBodyRole).mpr
      apply Or.inr
      apply List.mem_append.mpr
      apply Or.inl
      rw [show normalizeRequiredRoles none = [baseTitleRole, baseBodyRole] from rfl]
      exact List.mem_cons_of_mem _ (List.mem_singleton.mpr rfl)
    have hfil : baseBodyRole ∈ ((normalizeRequiredRoles none ++ targets).foldl
        (fun acc r => if r ∈ acc then acc else acc ++ [r]) []).filter
        (fun r => (rulesGet rules r).isNone) := by
      apply List.mem_filter.mpr
      refine ⟨hmem, ?_⟩
      simp [hnone]
    rw [if_pos (List.ne_nil_of_mem hfil)]
    exact ⟨_, rfl⟩

/-- Rules map for the C4 witness: only a complete title_L1, no body_L1. -/
def c4Rules : RulesMap := [("title_L1", defaultRule "title_L1")]

/-- Witness for C4: strict mode leaves the map untouched, the validation
    characterization holds at a concrete map, and a map lacking body_L1 makes
    the strict tail fail. -/
theorem claim_C4_witness :
    applyFallbacks c4Rules true true none none none = Except.ok c4Rules ∧
      (validateStrict c4Rules none (some []) = Except.ok () ↔
        ((∀ role ∈ normalizeRequiredRoles none ++ [], (rulesGet c4Rules role).isSome) ∧
          ∀ p ∈ c4Rules, missingRequiredFields p.2 = [])) ∧
      ∃ e, finalizeRules c4Rules true true none none none = Except.error e := by
  refine ⟨claim_C4_strict_contract.1 c4Rules true none none none, ?_, ?_⟩
  · exact claim_C4_strict_contract.2.1 c4Rules none (some []) [] rfl
  · exact claim_C4_strict_contract.2.2 c4Rules true none rfl

/-- Lexicographic less-or-equal on integer lists; a shorter list that is a
    prefix of a longer one comes first (this encodes Python tuple/string
    comparison once strings are unrolled to code points with a -1 end mark). -/
def listLEb : List Int → List Int → Bool
  | [], _ => true
  | _ :: _, [] => false
  | a :: as, b :: bs =>
    if a < b then true
    else if b < a then false
    else listLEb as bs

theorem listLEb_refl : ∀ l : List Int, listLEb l l = true := by
  intro l
  induction l with
  | nil => rfl
  | cons a as ih =>
    simp only [listLEb, lt_irrefl, if_false]
    exact ih

theorem listLEb_total : ∀ a b : List Int, listLEb a b = true ∨ listLEb b a = true := by
  intro a
  induction a with
  | nil => intro b; exact Or.inl rfl
  | cons x xs ih =>
    intro b
    cases b with
    | nil => exact Or.inr rfl
    | cons y ys =>
      simp only [listLEb]
      rcases lt_trichotomy x y with h | h | h
      · left; rw [if_pos h]
      · subst h
        rcases ih ys with h' | h'
        · left; rw [if_neg (lt_irrefl x), if_neg (lt_irrefl x)]; exact h'
        · right; rw [if_neg (lt_irrefl x), if_neg (lt_irrefl x)]; exact h'
      · right; rw [if_pos h]

theorem listLEb_trans : ∀ a b c : List Int, listLEb a b = true → listLEb b c = true →
    listLEb a c = true := by
  intro a
  induction a with
  | nil => intro b c _ _; rfl
  | cons x xs ih =>
    intro b c hab hbc
    cases b with
    | nil => cases hab
    | cons y ys =>
      cases c with
      | nil => cases hbc
      | cons z zs =>
        simp only [listLEb] at hab hbc ⊢
        rcases lt_trichotomy x y with hxy | hxy | hxy
        · rcases lt_trichotomy y z with hyz | hyz | hyz
          · rw [if_pos (lt_trans hxy hyz)]
          · subst hyz; rw [if_pos hxy]
          · rw [if_pos hyz, if_neg (not_lt_of_lt hyz)] at hbc
            cases hbc
        · subst hxy
          rcases lt_trichotomy x z with hyz | hyz | hyz
          · rw [if_pos hyz]
          · subst hyz
            rw [if_neg (lt_irrefl x), if_neg (lt_irrefl x)] at hab hbc ⊢
            exact ih ys zs hab hbc
          · rw [if_neg (not_lt_of_lt hyz), if_pos hyz] at hbc
            cases hbc
        · rw [if_neg (not_lt_of_lt hxy), if_pos hxy] at hab
          cases hab

/-- A string unrolled to code points with a -1 terminator, so that list-lex
    comparison of the unrolled forms agrees with Python string comparison
    even when one string is a proper prefix of the other. -/
def strEncode (s : String) : List Int :=
  s.data.map (fun c => (c.toNat : Int)) ++ [-1]

/-- `_SOURCE_PRIORITY` lookup with default 99 (src/template_parser.py). -/
def sourcePriority (s : String) : Int :=
  if s = "explicit" then 0
  else if s = "stack" then 1
  else if s = "outline" then 2
  else if s = "keyword" then 3
  else if s = "text" then 4
  else if s = "global" then 5
  else if s = "fallback" then 6
  else 99

/-- The sampling aggregate of a conflict-resolver candidate, reduced to the
    fields `_candidate_sort_key` reads: `stats.count`, `stats.first_index`,
    and the TOC level parsed from `stats.style_name` (the
    `_parse_toc_level_from_name` regex result, carried as data). -/
structure CandStats where
  count : Int
  firstIndex : Option Int
  nameTocLevel : Option Int
  deriving Repr, DecidableEq

/-- A conflict-resolver candidate as `_candidate_sort_key` and
    `_resolve_role_conflicts` consume it: the source tag, the optional stats,
    the `order` index, the required-field completeness of the StyleRule built
    from it (`_required_field_score(_build_style_rule(...))`, carried as
    data), the resolved style id and the TOC level parsed from the resolved
    style name. -/
structure Candidate where
  source : String
  stats : Option CandStats
  order : Int
  completeness : Int
  styleId : String
  resolvedNameTocLevel : Option Int
  deriving Repr, DecidableEq

/-- Embeds `_candidate_sort_key` (src/template_parser.py) as an integer list
    compared lexicographically: source priority, then (for `toc_body`) the
    parsed TOC level, then order/count/completeness per the source, with the
    style id unrolled at the end as the final tie-break. -/
def candidateSortKey (role : String) (c : Candidate) : List Int :=
  let count : Int := match c.stats with | some s => s.count | none => 0
  let orderIndex : Int :=
    match c.stats with
    | some s => match s.firstIndex with | some i => i | none => c.order
    | none => c.order
  let prio := sourcePriority c.source
  if role = "toc_body" then
    let tocLevel : Option Int :=
      match c.stats with
      | some s =>
        match s.nameTocLevel with
        | some l => some l
        | none => c.resolvedNameTocLevel
      | none => c.resolvedNameTocLevel
    let tocSort : Int := match tocLevel with | some l => l | none => 99
    [prio, tocSort, orderIndex, -count, -c.completeness] ++ strEncode c.styleId
  else
    [prio, 0, -count, -c.completeness, orderIndex] ++ strEncode c.styleId

/-- Candidate ordering for one role, as used by the Python `sorted` calls. -/
def candLE (role : String) (a b : Candidate) : Prop :=
  listLEb (candidateSortKey role a) (candidateSortKey role b) = true

instance (role : String) : DecidableRel (candLE role) :=
  fun a b => inferInstanceAs (Decidable (_ = true))

instance (role : String) : IsTotal Candidate (candLE role) :=
  ⟨fun a b => listLEb_total _ _⟩

instance (role : String) : IsTrans Candidate (candLE role) :=
  ⟨fun _ _ _ => listLEb_trans _ _ _⟩

/-- One role with its sorted candidate list, as held in `sorted_candidates`. -/
abbrev RoleEntry := String × List Candidate

/-- The processing key `(best_keys[item], item)` of a role in a constrained
    group, as an integer list. -/
def roleProcKey (p : RoleEntry) : List Int :=
  (match p.2 with
   | c :: _ => candidateSortKey p.1 c
   | [] => []) ++ strEncode p.1

/-- Role processing order within a constrained group. -/
def roleProcLE (p q : RoleEntry) : Prop :=
  listLEb (roleProcKey p) (roleProcKey q) = true

instance : DecidableRel roleProcLE :=
  fun a b => inferInstanceAs (Decidable (_ = true))

instance : IsTotal RoleEntry roleProcLE := ⟨fun a b => listLEb_total _ _⟩

instance : IsTrans RoleEntry roleProcLE := ⟨fun _ _ _ => listLEb_trans _ _ _⟩

/-- A `_warn` record of the conflict resolver. -/
structure ConflictWarning where
  rule : String
  reason : String
  role : String
  styleId : String
  deriving Repr, DecidableEq

/-- `used_styles.setdefault(style_id, role)`. -/
def usedSetdefault (used : List (String × String)) (sid role : String) :
    List (String × String) :=
  if (alistGet used sid).isSome then used else used ++ [(sid, role)]

/-- The inner candidate scan of `_resolve_role_conflicts`: the first candidate
    whose style id is empty or unclaimed, plus a conflict_resolved warning for
    each claimed candidate skipped on the way. -/
def pickScan (used : List (String × String)) (role : String) :
    List Candidate → Option Candidate × List ConflictWarning
  | [] => (none, [])
  | c :: cs =>
    if c.styleId = "" ∨ (alistGet used c.styleId).isNone then (some c, [])
    else
      let usedBy := (alistGet used c.styleId).getD ""
      let rest := pickScan used role cs
      (rest.1,
        { rule := "conflict_resolved"
          reason := "skip " ++ c.styleId ++ " used by " ++ usedBy
          role := role, styleId := c.styleId } :: rest.2)

/-- State threaded through a constrained group's greedy allocation. -/
structure AllocState where
  used : List (String × String)
  selected : List (String × Candidate)
  warnings : List ConflictWarning
  deriving Repr, DecidableEq

/-- One role's allocation step inside a constrained group
    (`_resolve_role_conflicts`, src/template_parser.py): greedy pick, forced
    reuse of the top candidate when everything is claimed (with a
    shared_style warning), and `setdefault` registration of the style id.
    An empty candidate list cannot occur (empty lists are filtered before
    grouping); it allocates nothing. -/
def allocStep (st : AllocState) (p : RoleEntry) : AllocState :=
  let role := p.1
  let scan := pickScan st.used role p.2
  match scan.1 with
  | some c =>
    { used := if c.styleId ≠ "" then usedSetdefault st.used c.styleId role else st.used
      selected := st.selected ++ [(role, c)]
      warnings := st.warnings ++ scan.2 }
  | none =>
    match p.2 with
    | [] => { st with warnings := st.warnings ++ scan.2 }
    | c0 :: _ =>
      let sharedWs : List ConflictWarning :=
        if c0.styleId ≠ "" ∧ (alistGet st.used c0.styleId).isSome then
          [{ rule := "shared_style"
             reason := "shared with " ++ (alistGet st.used c0.styleId).getD ""
             role := role, styleId := c0.styleId }]
        else []
      { used := if c0.styleId ≠ "" then usedSetdefault st.used c0.styleId role else st.used
        selected := st.selected ++ [(role, c0)]
        warnings := st.warnings ++ scan.2 ++ sharedWs }

/-- The roles dict with each non-empty candidate list sorted by
    `_candidate_sort_key` (the `sorted_candidates` dict). -/
def sortedEntriesOf (rc : List (String × List Candidate)) : List RoleEntry :=
  (rc.filter (fun p => !p.2.isEmpty)).map
    (fun p => (p.1, List.insertionSort (candLE p.1) p.2))

/-- First-seen-order de-duplication of the group list. -/
def dedupOpt (l : List (Option String)) : List (Option String) :=
  l.foldl (fun acc g => if g ∈ acc then acc else acc ++ [g]) []

/-- A constrained group's entries in processing order: sorted by the best
    candidate's key, then by role name. -/
def groupProcOrder (entries : List RoleEntry) : List RoleEntry :=
  List.insertionSort roleProcLE entries

/-- One exclusivity group's allocation (`_resolve_role_conflicts`): `cover`
    and `toc` groups and ungrouped roles take their top-ranked candidate;
    a constrained group runs the greedy no-reuse fold in processing order. -/
def processGroup (g : Option String) (entries : List RoleEntry) :
    List (String × Candidate) × List ConflictWarning :=
  if g = none ∨ g = some "cover" ∨ g = some "toc" then
    (entries.filterMap (fun p => (p.2.head?).map (fun c => (p.1, c))), [])
  else
    let st := (groupProcOrder entries).foldl allocStep ⟨[], [], []⟩
    (st.selected, st.warnings)

/-- Embeds `_resolve_role_conflicts` (src/template_parser.py): group the
    sorted candidates by exclusivity group in first-seen order and allocate
    each group. -/
def resolveRoleConflicts (rc : List (String × List Candidate)) :
    List (String × Candidate) × List ConflictWarning :=
  let sortedEntries := sortedEntriesOf rc
  let groups := dedupOpt (sortedEntries.map (fun p => resolveRoleGroup p.1))
  groups.foldl
    (fun acc g =>
      let res := processGroup g
        (sortedEntries.filter (fun p => resolveRoleGroup p.1 = g))
      (acc.1 ++ res.1, acc.2 ++ res.2))
    ([], [])

theorem alistGet_cons (p : String × String) (l : List (String × String)) (k : String) :
    alistGet (p :: l) k = if p.1 = k then some p.2 else alistGet l k := by
  unfold alistGet
  simp only [List.find?]
  by_cases hp : p.1 = k
  · rw [if_pos hp]
    rw [show (p.1 == k) = true by simpa using hp]
  · rw [if_neg hp]
    rw [show (p.1 == k) = false by simpa using hp]

theorem alistGet_append_of_some (l l2 : List (String × String)) (k v : String)
    (h : alistGet l k = some v) : alistGet (l ++ l2) k = some v := by
  induction l with
  | nil => cases h
  | cons p ps ih =>
    rw [alistGet_cons] at h
    rw [List.cons_append, alistGet_cons]
    by_cases hp : p.1 = k
    · rw [if_pos hp] at h ⊢; exact h
    · rw [if_neg hp] at h ⊢; exact ih h

theorem alistGet_append_single_none (l : List (String × String)) (k0 v0 k : String)
    (h : alistGet l k = none) :
    alistGet (l ++ [(k0, v0)]) k = if k0 = k then some v0 else none := by
  induction l with
  | nil =>
    simp only [List.nil_append, alistGet_cons]
    rfl
  | cons p ps ih =>
    rw [alistGet_cons] at h
    rw [List.cons_append, alistGet_cons]
    by_cases hp : p.1 = k
    · rw [if_pos hp] at h; cases h
    · rw [if_neg hp] at h ⊢; exact ih h

theorem usedSetdefault_preserve (used : List (String × String)) (sid role k v : String)
    (h : alistGet used k = some v) :
    alistGet (usedSetdefault used sid role) k = some v := by
  unfold usedSetdefault
  split
  · exact h
  · exact alistGet_append_of_some used _ k v h

theorem usedSetdefault_isSome (used : List (String × String)) (sid role : String) :
    (alistGet (usedSetdefault used sid role) sid).isSome := by
  unfold usedSetdefault
  split
  next h => exact h
  next h =>
    cases hg : alistGet used sid with
    | some v => rw [alistGet_append_of_some used _ sid v hg]; rfl
    | none =>
      rw [alistGet_append_single_none used sid role sid hg, if_pos rfl]
      rfl

theorem pickScan_none_all (used : List (String × String)) (role : String) :
    ∀ cs, (pickScan used role cs).1 = none →
      ∀ c ∈ cs, c.styleId ≠ "" ∧ (alistGet used c.styleId).isSome := by
  intro cs
  induction cs with
  | nil => intro _ c hc; cases hc
  | cons c0 rest ih =>
    intro h c hc
    unfold pickScan at h
    split at h
    · cases h
    · next hcond =>
      push_neg at hcond
      rcases List.mem_cons.mp hc with rfl | hmem
      · refine ⟨hcond.1, ?_⟩
        have := hcond.2
        cases hg : alistGet used c.styleId with
        | none => rw [hg] at this; exact absurd rfl this
        | some v => rfl
      · simp only [] at h
        exact ih h c hmem

theorem pickScan_some_props (used : List (String × String)) (role : String) :
    ∀ cs c, (pickScan used role cs).1 = some c →
      c ∈ cs ∧ (c.styleId = "" ∨ (alistGet used c.styleId).isNone) := by
  intro cs
  induction cs with
  | nil => intro c h; cases h
  | cons c0 rest ih =>
    intro c h
    unfold pickScan at h
    split at h
    · next hcond =>
      cases h
      exact ⟨List.mem_cons_self _ _, hcond⟩
    · simp only [] at h
      rcases ih c h with ⟨hmem, hprop⟩
      exact ⟨List.mem_cons_of_mem _ hmem, hprop⟩

/-- Generic fold invariant. -/
theorem foldl_invariant {σ α : Type} (P : σ → Prop) (f : σ → α → σ) :
    ∀ (l : List α) (init : σ), P init → (∀ s a, a ∈ l → P s → P (f s a)) →
      P (l.foldl f init) := by
  intro l
  induction l with
  | nil => intro init h _; exact h
  | cons a as ih =>
    intro init h hstep
    exact ih (f init a)
      (hstep init a (List.mem_cons_self _ _) h)
      (fun s b hb => hstep s b (List.mem_cons_of_mem _ hb))

/-- After one allocation step, the selected list grows by exactly the role's
    pair (candidate lists are non-empty in every use). -/
theorem allocStep_selected (st : AllocState) (p : RoleEntry) (hp : p.2 ≠ []) :
    ∃ c, (allocStep st p).selected = st.selected ++ [(p.1, c)] ∧ c ∈ p.2 := by
  cases hscan : (pickScan st.used p.1 p.2).1 with
  | some c =>
    refine ⟨c, ?_, (pickScan_some_props st.used p.1 p.2 c hscan).1⟩
    simp only [allocStep, hscan]
  | none =>
    cases hc : p.2 with
    | nil => exact absurd hc hp
    | cons c0 rest =>
      rw [hc] at hscan
      refine ⟨c0, ?_, List.mem_cons_self _ _⟩
      simp only [allocStep, hc, hscan]

theorem allocStep_used_preserve (st : AllocState) (p : RoleEntry) (k v : String)
    (h : alistGet st.used k = some v) :
    alistGet (allocStep st p).used k = some v := by
  cases hscan : (pickScan st.used p.1 p.2).1 with
  | some c =>
    simp only [allocStep, hscan]
    split
    · exact usedSetdefault_preserve st.used c.styleId p.1 k v h
    · exact h
  | none =>
    cases hc : p.2 with
    | nil => simp only [allocStep, hscan, hc]; exact h
    | cons c0 rest =>
      rw [hc] at hscan
      simp only [allocStep, hc, hscan]
      split
      · exact usedSetdefault_preserve st.used c0.styleId p.1 k v h
      · exact h

theorem allocStep_selected_mono (st : AllocState) (p : RoleEntry) (x : String × Candidate)
    (h : x ∈ st.selected) : x ∈ (allocStep st p).selected := by
  cases hscan : (pickScan st.used p.1 p.2).1 with
  | some c =>
    simp only [allocStep, hscan]
    exact List.mem_append.mpr (Or.inl h)
  | none =>
    cases hc : p.2 with
    | nil => simp only [allocStep, hscan, hc]; exact h
    | cons c0 rest =>
      rw [hc] at hscan
      simp only [allocStep, hc, hscan]
      exact List.mem_append.mpr (Or.inl h)

theorem allocStep_warnings_mono (st : AllocState) (p : RoleEntry) (w : ConflictWarning)
    (h : w ∈ st.warnings) : w ∈ (allocStep st p).warnings := by
  cases hscan : (pickScan st.used p.1 p.2).1 with
  | some c =>
    simp only [allocStep, hscan]
    exact List.mem_append.mpr (Or.inl h)
  | none =>
    cases hc : p.2 with
    | nil =>
      simp only [allocStep, hscan, hc]
      exact List.mem_append.mpr (Or.inl h)
    | cons c0 rest =>
      rw [hc] at hscan
      simp only [allocStep, hc, hscan]
      exact List.mem_append.mpr (Or.inl (List.mem_append.mpr (Or.inl h)))

theorem allocFold_roles :
    ∀ (L : List RoleEntry) (s : AllocState), (∀ p ∈ L, p.2 ≠ []) →
      ∃ tail, (L.foldl allocStep s).selected = s.selected ++ tail ∧
        tail.map Prod.fst = L.map Prod.fst := by
  intro L
  induction L with
  | nil =>
    intro s _
    exact ⟨[], by simp, rfl⟩
  | cons p ps ih =>
    intro s hne
    rcases allocStep_selected s p (hne p (List.mem_cons_self _ _)) with ⟨c, hsel, -⟩
    rcases ih (allocStep s p) (fun q hq => hne q (List.mem_cons_of_mem _ hq)) with
      ⟨tail, htail, hroles⟩
    refine ⟨(p.1, c) :: tail, ?_, ?_⟩
    · rw [List.foldl_cons, htail, hsel, List.append_assoc]
      rfl
    · simp only [List.map_cons, hroles]

/-- The used-styles dict records exactly the non-empty style ids of the
    selections made so far. -/
def usedSelInv (used : List (String × String)) (selected : List (String × Candidate)) :
    Prop :=
  (∀ sid r', alistGet used sid = some r' →
    sid ≠ "" ∧ ∃ k, (r', k) ∈ selected ∧ k.styleId = sid) ∧
  (∀ r k, (r, k) ∈ selected → k.styleId ≠ "" → (alistGet used k.styleId).isSome)

theorem usedSelInv_nil : usedSelInv [] [] :=
  ⟨(fun _ _ h => by cases h), (fun _ _ h => by cases h)⟩

theorem usedSelInv_extend (used : List (String × String))
    (selected : List (String × Candidate)) (role : String) (c : Candidate)
    (h : usedSelInv used selected) :
    usedSelInv (if c.styleId ≠ "" then usedSetdefault used c.styleId role else used)
      (selected ++ [(role, c)]) := by
  constructor
  · intro sid r' hget
    by_cases hcs : c.styleId ≠ ""
    · rw [if_pos hcs] at hget
      unfold usedSetdefault at hget
      split at hget
      · rcases h.1 sid r' hget with ⟨hne, k, hmem, heq⟩
        exact ⟨hne, k, List.mem_append.mpr (Or.inl hmem), heq⟩
      · cases hg0 : alistGet used sid with
        | some v =>
          rw [alistGet_append_of_some used _ sid v hg0] at hget
          have hv : v = r' := by injection hget
          subst hv
          rcases h.1 sid v hg0 with ⟨hne, k, hmem, heq⟩
          exact ⟨hne, k, List.mem_append.mpr (Or.inl hmem), heq⟩
        | none =>
          rw [alistGet_append_single_none used c.styleId role sid hg0] at hget
          by_cases hsid : c.styleId = sid
          · rw [if_pos hsid] at hget
            cases hget
            refine ⟨hsid ▸ hcs, c, ?_, hsid⟩
            exact List.mem_append.mpr (Or.inr (List.mem_singleton.mpr rfl))
          · rw [if_neg hsid] at hget
            cases hget
    · rw [if_neg hcs] at hget
      rcases h.1 sid r' hget with ⟨hne, k, hmem, heq⟩
      exact ⟨hne, k, List.mem_append.mpr (Or.inl hmem), heq⟩
  · intro r k hmem hkne
    rcases List.mem_append.mp hmem with hold | hnew
    · have hs := h.2 r k hold hkne
      by_cases hcs : c.styleId ≠ ""
      · rw [if_pos hcs]
        cases hg : alistGet used k.styleId with
        | none => rw [hg] at hs; cases hs
        | some v =>
          rw [usedSetdefault_preserve used c.styleId role _ v hg]
          rfl
      · rw [if_neg hcs]
        exact hs
    · have hpair := List.mem_singleton.mp hnew
      have hr : r = role := congrArg Prod.fst hpair
      have hk : k = c := congrArg Prod.snd hpair
      subst hr hk
      rw [if_pos hkne]
      exact usedSetdefault_isSome used k.styleId r

theorem allocStep_inv (st : AllocState) (p : RoleEntry)
    (h : usedSelInv st.used st.selected) :
    usedSelInv (allocStep st p).used (allocStep st p).selected := by
  cases hscan : (pickScan st.used p.1 p.2).1 with
  | some c =>
    simp only [allocStep, hscan]
    exact usedSelInv_extend st.used st.selected p.1 c h
  | none =>
    cases hc : p.2 with
    | nil =>
      rw [hc] at hscan
      simpa only [allocStep, hc, hscan] using h
    | cons c0 rest =>
      rw [hc] at hscan
      simp only [allocStep, hc, hscan]
      exact usedSelInv_extend st.used st.selected p.1 c0 h

theorem allocFold_inv (L : List RoleEntry) (s : AllocState)
    (h : usedSelInv s.used s.selected) :
    usedSelInv (L.foldl allocStep s).used (L.foldl allocStep s).selected :=
  foldl_invariant (fun st => usedSelInv st.used st.selected) allocStep L s h
    (fun st a _ hst => allocStep_inv st a hst)

theorem allocFold_selected_mono (L : List RoleEntry) (s : AllocState)
    (x : String × Candidate) (h : x ∈ s.selected) :
    x ∈ (L.foldl allocStep s).selected :=
  foldl_invariant (fun st => x ∈ st.selected) allocStep L s h
    (fun st a _ hst => allocStep_selected_mono st a x hst)

theorem allocFold_warnings_mono (L : List RoleEntry) (s : AllocState)
    (w : ConflictWarning) (h : w ∈ s.warnings) :
    w ∈ (L.foldl allocStep s).warnings :=
  foldl_invariant (fun st => w ∈ st.warnings) allocStep L s h
    (fun st a _ hst => allocStep_warnings_mono st a w hst)

/-- The heart of C3: within a constrained group, if the role at a given
    position ends up selected with a non-empty style id that an earlier role
    of the group also received, then every one of its candidates carries a
    non-empty style id already claimed by an earlier role, the forced pick is
    its top-ranked candidate, and a shared_style warning is recorded. -/
theorem alloc_shared (L1 : List RoleEntry) (r2 : String) (c2s : List Candidate)
    (L2 : List RoleEntry)
    (hne : ∀ p ∈ L1 ++ (r2, c2s) :: L2, p.2 ≠ [])
    (hnd : ((L1 ++ (r2, c2s) :: L2).map Prod.fst).Nodup)
    (st : AllocState)
    (hst : st = (L1 ++ (r2, c2s) :: L2).foldl allocStep ⟨[], [], []⟩)
    (k2 : Candidate)
    (hk2 : (r2, k2) ∈ st.selected)
    (hk2ne : k2.styleId ≠ "")
    (hshared : ∃ r1 k1, r1 ∈ L1.map Prod.fst ∧ (r1, k1) ∈ st.selected ∧
      k1.styleId = k2.styleId) :
    (∀ c ∈ c2s, c.styleId ≠ "" ∧
      ∃ r' k', r' ∈ L1.map Prod.fst ∧ (r', k') ∈ st.selected ∧
        k'.styleId = c.styleId) ∧
    (∃ rest, c2s = k2 :: rest) ∧
    (∃ w ∈ st.warnings, w.rule = "shared_style" ∧ w.role = r2 ∧
      w.styleId = k2.styleId) := by
  classical
  -- decompose the fold
  set sA := L1.foldl allocStep ⟨[], [], []⟩ with hsA
  set sB := allocStep sA (r2, c2s) with hsB
  have hfold : st = L2.foldl allocStep sB := by
    rw [hst, List.foldl_append, List.foldl_cons]
  -- shapes
  have hneL1 : ∀ p ∈ L1, p.2 ≠ [] :=
    fun p hp => hne p (List.mem_append.mpr (Or.inl hp))
  have hneL2 : ∀ p ∈ L2, p.2 ≠ [] :=
    fun p hp => hne p (List.mem_append.mpr (Or.inr (List.mem_cons_of_mem _ hp)))
  have hner2 : c2s ≠ [] :=
    hne (r2, c2s) (List.mem_append.mpr (Or.inr (List.mem_cons_self _ _)))
  rcases allocFold_roles L1 ⟨[], [], []⟩ hneL1 with ⟨tailA, htailA, hrolesA⟩
  have hselA : sA.selected = tailA := by rw [← hsA] at htailA; simpa using htailA
  rcases allocStep_selected sA (r2, c2s) hner2 with ⟨cpick, hselB, hcpickmem⟩
  rcases allocFold_roles L2 sB hneL2 with ⟨tailC, htailC, hrolesC⟩
  have hselSt : st.selected = sA.selected ++ [(r2, cpick)] ++ tailC := by
    rw [hfold, htailC, hselB]
  -- nodup pieces
  have hndparts := hnd
  rw [List.map_append, List.map_cons] at hndparts
  rw [List.nodup_append] at hndparts
  have hr2L1 : r2 ∉ L1.map Prod.fst := by
    intro hc
    exact (hndparts.2.2 hc) (List.mem_cons_self _ _)
  have hr2L2 : r2 ∉ L2.map Prod.fst := by
    have := hndparts.2.1
    rw [List.nodup_cons] at this
    exact this.1
  have hdisj : ∀ x, x ∈ L1.map Prod.fst → x ∈ L2.map Prod.fst → False := by
    intro x hx1 hx2
    exact (hndparts.2.2 hx1) (List.mem_cons_of_mem _ hx2)
  -- pin k2 to the step's pick
  have hk2pin : k2 = cpick := by
    rw [hselSt] at hk2
    rcases List.mem_append.mp hk2 with hk | hk
    · rcases List.mem_append.mp hk with hk' | hk'
      · exfalso
        apply hr2L1
        rw [← hrolesA, ← hselA]
        exact List.mem_map_of_mem Prod.fst hk'
      · exact congrArg Prod.snd (List.mem_singleton.mp hk')
    · exfalso
      apply hr2L2
      rw [← hrolesC]
      exact List.mem_map_of_mem Prod.fst hk
  -- the invariant at sA
  have hinvA : usedSelInv sA.used sA.selected := by
    rw [hsA]
    exact allocFold_inv L1 ⟨[], [], []⟩ usedSelInv_nil
  -- earlier selection with the same id pins into sA and gives a used entry
  have husedSome : (alistGet sA.used k2.styleId).isSome := by
    rcases hshared with ⟨r1, k1, hr1L1, hk1mem, hk1eq⟩
    have hk1A : (r1, k1) ∈ sA.selected := by
      rw [hselSt] at hk1mem
      rcases List.mem_append.mp hk1mem with hk | hk
      · rcases List.mem_append.mp hk with hk' | hk'
        · exact hk'
        · exfalso
          have hr12 : r1 = r2 := congrArg Prod.fst (List.mem_singleton.mp hk')
          exact hr2L1 (hr12 ▸ hr1L1)
      · exfalso
        apply hdisj r1 hr1L1
        rw [← hrolesC]
        exact List.mem_map_of_mem Prod.fst hk
    have := hinvA.2 r1 k1 hk1A (by rw [hk1eq]; exact hk2ne)
    rw [hk1eq] at this
    exact this
  -- the scan at r2's turn must have failed
  cases hscan : (pickScan sA.used r2 c2s).1 with
  | some c =>
    exfalso
    have hcpick : cpick = c := by
      have h1 : sB.selected = sA.selected ++ [(r2, c)] := by
        rw [hsB]
        simp only [allocStep, hscan]
      rw [hselB] at h1
      have hpair := List.singleton_inj.mp (List.append_inj_right h1 rfl)
      exact congrArg Prod.snd hpair
    rcases pickScan_some_props sA.used r2 c2s c hscan with ⟨-, hprop⟩
    rcases hprop with hempty | hnone
    · rw [hk2pin, hcpick] at hk2ne
      exact hk2ne hempty
    · rw [hk2pin, hcpick] at husedSome
      rw [Option.isNone_iff_eq_none.mp hnone] at husedSome
      cases husedSome
  | none =>
    have hall := pickScan_none_all sA.used r2 c2s hscan
    cases hc2s : c2s with
    | nil => exact absurd hc2s hner2
    | cons c0 rest =>
      have hscanCons : (pickScan sA.used r2 (c0 :: rest)).1 = none := by
        rw [← hc2s]; exact hscan
      have hc0mem : c0 ∈ c2s := by rw [hc2s]; exact List.mem_cons_self _ _
      have hcpick0 : cpick = c0 := by
        have h1 : sB.selected = sA.selected ++ [(r2, c0)] := by
          rw [hsB, hc2s]
          simp only [allocStep, hscanCons]
        rw [hselB] at h1
        have hpair := List.singleton_inj.mp (List.append_inj_right h1 rfl)
        exact congrArg Prod.snd hpair
      refine ⟨?_, ⟨rest, by rw [hk2pin, hcpick0]⟩, ?_⟩
      · intro c hcmem
        rcases hall c (by rw [hc2s]; exact hcmem) with ⟨hcne, hcused⟩
        refine ⟨hcne, ?_⟩
        cases hg : alistGet sA.used c.styleId with
        | none => rw [hg] at hcused; cases hcused
        | some r' =>
          rcases hinvA.1 c.styleId r' hg with ⟨-, k', hk'mem, hk'eq⟩
          refine ⟨r', k', ?_, ?_, hk'eq⟩
          · rw [← hrolesA, ← hselA]
            exact List.mem_map_of_mem Prod.fst hk'mem
          · rw [hselSt]
            exact List.mem_append.mpr (Or.inl (List.mem_append.mpr (Or.inl hk'mem)))
      · have hc0all := hall c0 hc0mem
        have hwB : ∃ w ∈ sB.warnings, w.rule = "shared_style" ∧ w.role = r2 ∧
            w.styleId = c0.styleId := by
          have hwarn : sB.warnings = sA.warnings ++ (pickScan sA.used r2 (c0 :: rest)).2 ++
              [{ rule := "shared_style"
                 reason := "shared with " ++ (alistGet sA.used c0.styleId).getD ""
                 role := r2, styleId := c0.styleId }] := by
            rw [hsB, hc2s]
            simp only [allocStep, hscanCons]
            rw [if_pos ⟨hc0all.1, hc0all.2⟩]
          refine ⟨{ rule := "shared_style"
                    reason := "shared with " ++ (alistGet sA.used c0.styleId).getD ""
                    role := r2, styleId := c0.styleId }, ?_, rfl, rfl, rfl⟩
          rw [hwarn]
          exact List.mem_append.mpr (Or.inr (List.mem_singleton.mpr rfl))
        rcases hwB with ⟨w, hwmem, hwprops⟩
        refine ⟨w, ?_, hwprops.1, hwprops.2.1, ?_⟩
        · rw [hfold]
          exact allocFold_warnings_mono L2 sB w hwmem
        · rw [hwprops.2.2, hk2pin, hcpick0]

/-- A successful scan picks the first candidate whose style id is empty or
    unclaimed; everything ranked above it is a claimed non-empty id. -/
theorem pickScan_some_split (used : List (String × String)) (role : String) :
    ∀ cs c, (pickScan used role cs).1 = some c →
      ∃ pre post, cs = pre ++ c :: post ∧
        (∀ c' ∈ pre, c'.styleId ≠ "" ∧ (alistGet used c'.styleId).isSome) ∧
        (c.styleId = "" ∨ (alistGet used c.styleId).isNone) := by
  intro cs
  induction cs with
  | nil => intro c h; cases h
  | cons c0 rest ih =>
    intro c h
    unfold pickScan at h
    split at h
    · next hcond =>
      cases h
      exact ⟨[], rest, rfl, fun c' hc' => absurd hc' (List.not_mem_nil c'), hcond⟩
    · next hcond =>
      push_neg at hcond
      simp only [] at h
      rcases ih c h with ⟨pre, post, heq, hpre, hc⟩
      refine ⟨c0 :: pre, post, by rw [heq, List.cons_append], ?_, hc⟩
      intro c' hc'
      rcases List.mem_cons.mp hc' with rfl | hmem
      · refine ⟨hcond.1, ?_⟩
        have h2 := hcond.2
        cases hg : alistGet used c'.styleId with
        | none => rw [hg] at h2; exact absurd rfl h2
        | some v => rfl
      · exact hpre c' hmem

/-- Folding pairwise appends equals joining the per-element outputs. -/
theorem foldl_join_pair {α β γ : Type} (f : α → List β × List γ) :
    ∀ (l : List α) (acc : List β × List γ),
      l.foldl (fun acc g => (acc.1 ++ (f g).1, acc.2 ++ (f g).2)) acc =
        (acc.1 ++ (l.map (fun g => (f g).1)).flatten,
         acc.2 ++ (l.map (fun g => (f g).2)).flatten) := by
  intro l
  induction l with
  | nil => intro acc; simp
  | cons a as ih =>
    intro acc
    rw [List.foldl_cons, ih]
    simp [List.append_assoc]

/-- The conflict resolver is the join of the per-group allocations taken over
    the groups in first-seen order. -/
theorem resolveRoleConflicts_eq (rc : List (String × List Candidate)) :
    resolveRoleConflicts rc =
      (((dedupOpt ((sortedEntriesOf rc).map (fun p => resolveRoleGroup p.1))).map
          (fun g => (processGroup g ((sortedEntriesOf rc).filter
            (fun p => resolveRoleGroup p.1 = g))).1)).flatten,
       ((dedupOpt ((sortedEntriesOf rc).map (fun p => resolveRoleGroup p.1))).map
          (fun g => (processGroup g ((sortedEntriesOf rc).filter
            (fun p => resolveRoleGroup p.1 = g))).2)).flatten) := by
  have h := foldl_join_pair
    (fun g => processGroup g ((sortedEntriesOf rc).filter
      (fun p => resolveRoleGroup p.1 = g)))
    (dedupOpt ((sortedEntriesOf rc).map (fun p => resolveRoleGroup p.1))) ([], [])
  simpa [resolveRoleConflicts] using h

/-- **C3.** In the conflict resolver: the output is the join of per-group
    allocations; the cover and toc groups and the ungrouped roles always
    receive their top-ranked candidate with no warnings; a constrained group
    processes its roles sorted by the best candidate's key (role name as
    tie-break, a permutation of the group); a scan success greedily selects
    the highest-ranked candidate whose style id is empty or unclaimed (all
    higher-ranked candidates carry claimed non-empty ids); and a role of a
    constrained group that ends up sharing a non-empty style id with an
    earlier role of the group has every candidate claimed by earlier roles,
    is forced onto its top-ranked candidate, and gets a shared_style
    warning recorded. -/
theorem claim_C3_exclusivity_groups :
    (∀ rc : List (String × List Candidate),
      resolveRoleConflicts rc =
        (((dedupOpt ((sortedEntriesOf rc).map (fun p => resolveRoleGroup p.1))).map
            (fun g => (processGroup g ((sortedEntriesOf rc).filter
              (fun p => resolveRoleGroup p.1 = g))).1)).flatten,
         ((dedupOpt ((sortedEntriesOf rc).map (fun p => resolveRoleGroup p.1))).map
            (fun g => (processGroup g ((sortedEntriesOf rc).filter
              (fun p => resolveRoleGroup p.1 = g))).2)).flatten)) ∧
    (∀ (g : Option String) (entries : List RoleEntry),
      (g = none ∨ g = some "cover" ∨ g = some "toc") →
      (∀ x ∈ (processGroup g entries).1,
        ∃ cs, (x.1, cs) ∈ entries ∧ cs.head? = some x.2) ∧
      (processGroup g entries).2 = []) ∧
    (∀ entries : List RoleEntry,
      (groupProcOrder entries).Sorted roleProcLE ∧
      (groupProcOrder entries).Perm entries) ∧
    (∀ (st : AllocState) (p : RoleEntry) (c : Candidate),
      (pickScan st.used p.1 p.2).1 = some c →
      (allocStep st p).selected = st.selected ++ [(p.1, c)] ∧
      ∃ pre post, p.2 = pre ++ c :: post ∧
        (∀ c' ∈ pre, c'.styleId ≠ "" ∧ (alistGet st.used c'.styleId).isSome) ∧
        (c.styleId = "" ∨ (alistGet st.used c.styleId).isNone)) ∧
    (∀ (g : Option String) (entries : List RoleEntry),
      ¬(g = none ∨ g = some "cover" ∨ g = some "toc") →
      ∀ (L1 : List RoleEntry) (r2 : String) (c2s : List Candidate)
        (L2 : List RoleEntry),
        groupProcOrder entries = L1 ++ (r2, c2s) :: L2 →
        (∀ p ∈ L1 ++ (r2, c2s) :: L2, p.2 ≠ []) →
        ((L1 ++ (r2, c2s) :: L2).map Prod.fst).Nodup →
        ∀ k2 : Candidate, (r2, k2) ∈ (processGroup g entries).1 →
          k2.styleId ≠ "" →
          (∃ r1 k1, r1 ∈ L1.map Prod.fst ∧
            (r1, k1) ∈ (processGroup g entries).1 ∧ k1.styleId = k2.styleId) →
          (∀ c ∈ c2s, c.styleId ≠ "" ∧
            ∃ r' k', r' ∈ L1.map Prod.fst ∧
              (r', k') ∈ (processGroup g entries).1 ∧ k'.styleId = c.styleId) ∧
          (∃ rest, c2s = k2 :: rest) ∧
          (∃ w ∈ (processGroup g entries).2, w.rule = "shared_style" ∧
            w.role = r2 ∧ w.styleId = k2.styleId)) := by
  refine ⟨resolveRoleConflicts_eq, ?_, ?_, ?_, ?_⟩
  · intro g entries hg
    constructor
    · intro x hx
      unfold processGroup at hx
      rw [if_pos hg] at hx
      rcases List.mem_filterMap.mp hx with ⟨p, hp, hfp⟩
      cases hh : p.2.head? with
      | none => rw [hh] at hfp; cases hfp
      | some c =>
        rw [hh] at hfp
        have hx' : (p.1, c) = x := by simpa using hfp
        subst hx'
        exact ⟨p.2, hp, hh⟩
    · unfold processGroup
      rw [if_pos hg]
  · intro entries
    exact ⟨List.sorted_insertionSort roleProcLE entries,
      List.perm_insertionSort roleProcLE entries⟩
  · intro st p c hscan
    refine ⟨?_, pickScan_some_split st.used p.1 p.2 c hscan⟩
    simp only [allocStep, hscan]
  · intro g entries hg L1 r2 c2s L2 heq hne hnd k2 hk2 hk2ne hshared
    have hsel : (processGroup g entries).1 =
        ((L1 ++ (r2, c2s) :: L2).foldl allocStep ⟨[], [], []⟩).selected := by
      unfold processGroup
      rw [if_neg hg, heq]
    have hwarn : (processGroup g entries).2 =
        ((L1 ++ (r2, c2s) :: L2).foldl allocStep ⟨[], [], []⟩).warnings := by
      unfold processGroup
      rw [if_neg hg, heq]
    rw [hsel] at hk2 hshared
    rw [hsel, hwarn]
    exact alloc_shared L1 r2 c2s L2 hne hnd _ rfl k2 hk2 hk2ne hshared

/-- Two title roles whose only candidate carries the same style id. -/
def c3Cand : Candidate :=
  { source := "stack", stats := none, order := 0, completeness := 0,
    styleId := "s1", resolvedNameTocLevel := none }

def c3Entries : List RoleEntry :=
  [("title_L1", [c3Cand]), ("title_L2", [c3Cand])]

/-- Running C3's forced-reuse clause on the concrete two-role title group:
    title_L2 is forced onto its top candidate and a shared_style warning
    lands in the group's output. -/
theorem claim_C3_witness :
    (¬((some "title" : Option String) = none ∨
        (some "title" : Option String) = some "cover" ∨
        (some "title" : Option String) = some "toc")) ∧
    groupProcOrder c3Entries = [("title_L1", [c3Cand]), ("title_L2", [c3Cand])] ∧
    (∃ rest, [c3Cand] = c3Cand :: rest) ∧
    (∃ w ∈ (processGroup (some "title") c3Entries).2,
      w.rule = "shared_style" ∧ w.role = "title_L2" ∧
      w.styleId = c3Cand.styleId) := by
  have h := claim_C3_exclusivity_groups.2.2.2.2 (some "title") c3Entries
    (by decide) [("title_L1", [c3Cand])] "title_L2" [c3Cand] []
    (by decide) (by decide) (by decide) c3Cand (by decide) (by decide)
    ⟨"title_L1", c3Cand, by decide, by decide, rfl⟩
  exact ⟨by decide, by decide, h.2.1, h.2.2⟩

/-- Association-list lookup for arbitrary value types (Python dict `get`). -/
def alistGetD {β : Type} (m : List (String × β)) (k : String) : Option β :=
  match m.find? (fun p => p.1 == k) with
  | some p => some p.2
  | none => none

/-- The style fields `_detect_heading_levels` reads from each entry of its
    `styles` dict (src/template_parser.py). -/
structure DetectStyle where
  name : Option String
  outlineLevel : Option Int
  deriving Repr, DecidableEq

/-- The `SampleStats` fields that `_detect_heading_levels` and `_match_role`
    read (`style_name`, `outline_min`); the text samples feed only the
    abstracted special-text matcher. -/
structure SampleStatsD where
  styleName : Option String
  outlineMin : Option Int
  deriving Repr, DecidableEq

/-- Embeds `_extract_title_level_from_role` (src/template_parser.py):
    the anchored regex `title_L([1-9][0-9]*)` with IGNORECASE. -/
def extractTitleLevelFromRole (role : String) : Option Int :=
  ((listIsPrefix "title_l".data (pyLower role).data).bind posDigits).map
    (fun n => (n : Int))

/-- Python `set.add` on a set modeled as a first-insertion-ordered list. -/
def setInsertInt (l : List Int) (x : Int) : List Int :=
  if x ∈ l then l else l ++ [x]

/-- First-seen-order de-duplication of a string list (a Python `set` whose
    members are later only tested or iterated into further sets). -/
def dedupStr (l : List String) : List String :=
  l.foldl (fun acc s => if s ∈ acc then acc else acc ++ [s]) []

/-- The `_record` closure of `_detect_heading_levels`: state is the pair
    (detected, overflow). -/
def recordLevel (maxHeading : Option Int) (st : List Int × List Int)
    (level : Int) (explicitFlag : Bool) : List Int × List Int :=
  if level ≤ 0 then st
  else
    match maxHeading with
    | some m =>
      if m < level then
        if explicitFlag then (st.1, setInsertInt st.2 level) else st
      else (setInsertInt st.1 level, st.2)
    | none => (setInsertInt st.1 level, st.2)

/-- Pass 1 of `_detect_heading_levels`: every role-map value carrying a
    title level is recorded explicitly. -/
def recordExplicitRoles (maxHeading : Option Int) (values : List String)
    (st : List Int × List Int) : List Int × List Int :=
  values.foldl (fun st role =>
    match extractTitleLevelFromRole role with
    | some level => recordLevel maxHeading st level true
    | none => st) st

/-- Pass 2 of `_detect_heading_levels`: heading levels parsed from the style
    and sample names are recorded non-explicitly. -/
def recordNameLevels (parseName : String → Option Int) (maxHeading : Option Int)
    (names : List String) (st : List Int × List Int) : List Int × List Int :=
  names.foldl (fun st n =>
    match parseName n with
    | some level => recordLevel maxHeading st level false
    | none => st) st

/-- Whether a style is explicitly mapped to a title role through the id map
    or the name map (the `explicit_title_style_ids` loop). -/
def explicitTitleCheck (nameMap idMap : List (String × String)) (sid : String)
    (st : DetectStyle) : Bool :=
  let fromName :=
    let nm := pyLower (pyStrip (st.name.getD ""))
    if nm ≠ "" then
      match alistGet nameMap nm with
      | some mapped => (extractTitleLevelFromRole mapped).isSome
      | none => false
    else false
  match alistGet idMap (pyLower sid) with
  | some mapped =>
    if mapped ≠ "" ∧ (extractTitleLevelFromRole mapped).isSome then true
    else fromName
  | none => fromName

/-- The `outline_levels` list a style contributes: its own outline level then
    the sampled minimum. -/
def styleOutlineLevels (samples : List (String × SampleStatsD)) (sid : String)
    (st : DetectStyle) : List Int :=
  (match st.outlineLevel with | some l => [l] | none => []) ++
  (match alistGetD samples sid with
   | some stats => match stats.outlineMin with | some m => [m] | none => []
   | none => [])

/-- Pass 4 of `_detect_heading_levels`: candidate styles' outline levels,
    renormalized against the minimum, are recorded non-explicitly. -/
def recordOutlineLevels (maxHeading : Option Int) (minOutline : Option Int)
    (cands : List (String × List Int)) (st : List Int × List Int) :
    List Int × List Int :=
  match minOutline with
  | none => st
  | some m0 =>
    cands.foldl (fun st q =>
      match q.2.min? with
      | some ol => recordLevel maxHeading st (ol - m0 + 1) false
      | none => st) st

/-- Embeds `_detect_heading_levels` (src/template_parser.py), with the
    heading-name parser `_parse_heading_level_from_name` abstracted as the
    argument `parseName` (its regex battery is data to this control flow).
    Returns (sorted detected, sorted overflow, minimum outline level). -/
def detectHeadingLevels (parseName : String → Option Int)
    (styles : List (String × DetectStyle))
    (samples : List (String × SampleStatsD))
    (nameMap idMap : List (String × String)) (maxHeading : Option Int) :
    List Int × List Int × Option Int :=
  let st1 := recordExplicitRoles maxHeading
    (nameMap.map Prod.snd ++ idMap.map Prod.snd) ([], [])
  let names := dedupStr
    (styles.filterMap (fun p =>
      if p.2.name.getD "" ≠ "" then some (p.2.name.getD "") else none) ++
     samples.filterMap (fun p =>
      if p.2.styleName.getD "" ≠ "" then some (p.2.styleName.getD "") else none))
  let st2 := recordNameLevels parseName maxHeading names st1
  let candPairs := styles.filterMap (fun p =>
    let nm := if p.2.name.getD "" ≠ "" then p.2.name.getD ""
      else match alistGetD samples p.1 with
           | some stats => stats.styleName.getD ""
           | none => ""
    let lv := styleOutlineLevels samples p.1 p.2
    if (parseName nm).isSome || !lv.isEmpty ||
        explicitTitleCheck nameMap idMap p.1 p.2 then
      some (p.1, lv)
    else none)
  let minOutline := (candPairs.filterMap (fun q => q.2.min?)).min?
  let stFinal := recordOutlineLevels maxHeading minOutline candPairs st2
  (List.insertionSort (· ≤ ·) stFinal.1,
   List.insertionSort (· ≤ ·) stFinal.2, minOutline)

/-- Embeds `_match_role` (src/template_parser.py); the keyword and regex
    helpers `_match_special_role_by_style_name`,
    `_parse_heading_level_from_name`, the `_BODY_KEYWORDS` test and
    `_match_special_role_by_text` are abstracted as function arguments (their
    pattern batteries are data to this control flow). -/
def matchRole (specialByName : String → Option String)
    (parseName : String → Option Int) (bodyKw : String → Bool)
    (specialText : Option SampleStatsD → Option String)
    (resolved : ResolvedStyle) (nameMap idMap : List (String × String))
    (outlineLevelMax outlineLevelMin maxHeading : Option Int)
    (stats : Option SampleStatsD) : Option (String × String) :=
  let styleId := pyLower resolved.styleId
  match (if styleId ≠ "" then alistGet idMap styleId else none) with
  | some mapped => some (mapped, "explicit")
  | none =>
    let styleName := pyLower (resolved.name.getD "")
    match (if styleName ≠ "" then alistGet nameMap styleName else none) with
    | some mapped => some (mapped, "explicit")
    | none =>
      let outlineLevel : Option Int :=
        match stats with
        | some st =>
          match st.outlineMin, resolved.outlineLevel with
          | some m, none => some m
          | some m, some ol => if m < ol then some m else some ol
          | none, ol => ol
        | none => resolved.outlineLevel
      let outlineHit : Option (String × String) :=
        match outlineLevelMax, outlineLevel, outlineLevelMin with
        | some omax, some ol, some omin =>
          if ol ≤ omax then
            let normalized := ol - omin + 1
            if 0 < normalized then
              match maxHeading with
              | none => some ("title_L" ++ toString normalized, "outline")
              | some mh =>
                if normalized ≤ mh then
                  some ("title_L" ++ toString normalized, "outline")
                else none
            else none
          else none
        | _, _, _ => none
      match outlineHit with
      | some r => some r
      | none =>
        let keywordHit : Option (String × String) :=
          if styleName ≠ "" then
            match specialByName styleName with
            | some sp => some (sp, "keyword")
            | none =>
              match parseName styleName with
              | some tl =>
                match maxHeading with
                | none => some ("title_L" ++ toString tl, "keyword")
                | some mh =>
                  if tl ≤ mh then some ("title_L" ++ toString tl, "keyword")
                  else if bodyKw styleName then some (baseBodyRole, "keyword")
                  else none
              | none =>
                if bodyKw styleName then some (baseBodyRole, "keyword")
                else none
          else none
        match keywordHit with
        | some r => some r
        | none =>
          match specialText stats with
          | some sp => some (sp, "text")
          | none => none

theorem setInsertInt_mem (l : List Int) (x y : Int) (h : x ∈ l) :
    x ∈ setInsertInt l y := by
  unfold setInsertInt
  split
  · exact h
  · exact List.mem_append.mpr (Or.inl h)

theorem setInsertInt_self (l : List Int) (x : Int) : x ∈ setInsertInt l x := by
  unfold setInsertInt
  split
  · next h => exact h
  · exact List.mem_append.mpr (Or.inr (List.mem_singleton.mpr rfl))

theorem recordLevel_overflow_mono (maxHeading : Option Int)
    (st : List Int × List Int) (level : Int) (b : Bool) (x : Int)
    (h : x ∈ st.2) : x ∈ (recordLevel maxHeading st level b).2 := by
  unfold recordLevel
  by_cases h0 : level ≤ 0
  · rw [if_pos h0]; exact h
  · rw [if_neg h0]
    cases maxHeading with
    | none => exact h
    | some m =>
      show x ∈ (if m < level then
          if b = true then (st.1, setInsertInt st.2 level) else st
        else (setInsertInt st.1 level, st.2)).2
      by_cases hm : m < level
      · rw [if_pos hm]
        cases b with
        | false => exact h
        | true => exact setInsertInt_mem st.2 x level h
      · rw [if_neg hm]
        exact h

theorem recordLevel_overflow_self (mh level : Int) (st : List Int × List Int)
    (hL : 0 < level) (hmh : mh < level) :
    level ∈ (recordLevel (some mh) st level true).2 := by
  unfold recordLevel
  rw [if_neg (not_le.mpr hL)]
  show level ∈ (if mh < level then
      if true = true then (st.1, setInsertInt st.2 level) else st
    else (setInsertInt st.1 level, st.2)).2
  rw [if_pos hmh, if_pos rfl]
  exact setInsertInt_self st.2 level

theorem recordExplicitRoles_overflow_mono (maxHeading : Option Int)
    (values : List String) (st : List Int × List Int) (x : Int)
    (h : x ∈ st.2) : x ∈ (recordExplicitRoles maxHeading values st).2 := by
  unfold recordExplicitRoles
  apply foldl_invariant (fun s => x ∈ s.2) _ values st h
  intro s a _ hs
  cases hp : extractTitleLevelFromRole a with
  | none => simpa only [hp] using hs
  | some level =>
    simp only [hp]
    exact recordLevel_overflow_mono maxHeading s level true x hs

theorem recordNameLevels_overflow_mono (parseName : String → Option Int)
    (maxHeading : Option Int) (names : List String) (st : List Int × List Int)
    (x : Int) (h : x ∈ st.2) :
    x ∈ (recordNameLevels parseName maxHeading names st).2 := by
  unfold recordNameLevels
  apply foldl_invariant (fun s => x ∈ s.2) _ names st h
  intro s a _ hs
  cases hp : parseName a with
  | none => simpa only [hp] using hs
  | some level =>
    simp only [hp]
    exact recordLevel_overflow_mono maxHeading s level false x hs

theorem recordOutlineLevels_overflow_mono (maxHeading : Option Int)
    (minOutline : Option Int) (cands : List (String × List Int))
    (st : List Int × List Int) (x : Int) (h : x ∈ st.2) :
    x ∈ (recordOutlineLevels maxHeading minOutline cands st).2 := by
  unfold recordOutlineLevels
  cases minOutline with
  | none => exact h
  | some m0 =>
    apply foldl_invariant (fun s => x ∈ s.2) _ cands st h
    intro s a _ hs
    cases hp : a.2.min? with
    | none => simpa only [hp] using hs
    | some ol =>
      simp only [hp]
      exact recordLevel_overflow_mono maxHeading s (ol - m0 + 1) false x hs

/-- An over-cap level carried by a role-map value lands in the overflow set. -/
theorem detectHeadingLevels_overflow_mem (parseName : String → Option Int)
    (styles : List (String × DetectStyle))
    (samples : List (String × SampleStatsD))
    (nameMap idMap : List (String × String)) (mh L : Int) (v : String)
    (hv : v ∈ nameMap.map Prod.snd ++ idMap.map Prod.snd)
    (hx : extractTitleLevelFromRole v = some L)
    (hL : 0 < L) (hmh : mh < L) :
    L ∈ (detectHeadingLevels parseName styles samples nameMap idMap
      (some mh)).2.1 := by
  have h1 : L ∈ (recordExplicitRoles (some mh)
      (nameMap.map Prod.snd ++ idMap.map Prod.snd) ([], [])).2 := by
    rcases List.append_of_mem hv with ⟨s, t, hst⟩
    unfold recordExplicitRoles
    rw [hst, List.foldl_append, List.foldl_cons]
    refine foldl_invariant (fun st : List Int × List Int => L ∈ st.2) _ t _ ?_ ?_
    · simp only [hx]
      exact recordLevel_overflow_self mh L _ hL hmh
    · intro st a _ hs
      cases hp : extractTitleLevelFromRole a with
      | none => simpa only [hp] using hs
      | some level =>
        simp only [hp]
        exact recordLevel_overflow_mono (some mh) st level true L hs
  simp only [detectHeadingLevels]
  refine ((List.perm_insertionSort _ _).mem_iff).mpr ?_
  exact recordOutlineLevels_overflow_mono _ _ _ _ L
    (recordNameLevels_overflow_mono _ _ _ _ L h1)

/-- The explicit id-map branch of `_match_role` ignores every cap. -/
theorem matchRole_explicit_id (specialByName : String → Option String)
    (parseName : String → Option Int) (bodyKw : String → Bool)
    (specialText : Option SampleStatsD → Option String)
    (resolved : ResolvedStyle) (nameMap idMap : List (String × String))
    (omax omin mhead : Option Int) (stats : Option SampleStatsD)
    (mapped : String)
    (hne : pyLower resolved.styleId ≠ "")
    (hget : alistGet idMap (pyLower resolved.styleId) = some mapped) :
    matchRole specialByName parseName bodyKw specialText resolved nameMap idMap
      omax omin mhead stats = some (mapped, "explicit") := by
  simp only [matchRole, if_pos hne, hget]

/-- The explicit name-map branch of `_match_role` likewise ignores caps. -/
theorem matchRole_explicit_name (specialByName : String → Option String)
    (parseName : String → Option Int) (bodyKw : String → Bool)
    (specialText : Option SampleStatsD → Option String)
    (resolved : ResolvedStyle) (nameMap idMap : List (String × String))
    (omax omin mhead : Option Int) (stats : Option SampleStatsD)
    (mapped : String)
    (hid : (if pyLower resolved.styleId ≠ "" then
      alistGet idMap (pyLower resolved.styleId) else none) = none)
    (hnn : pyLower (resolved.name.getD "") ≠ "")
    (hget : alistGet nameMap (pyLower (resolved.name.getD "")) = some mapped) :
    matchRole specialByName parseName bodyKw specialText resolved nameMap idMap
      omax omin mhead stats = some (mapped, "explicit") := by
  simp only [matchRole, hid, if_pos hnn, hget]

/-- A role with a non-empty candidate list survives its group's allocation. -/
theorem processGroup_keeps_roles (g : Option String) (entries : List RoleEntry)
    (hne : ∀ p ∈ entries, p.2 ≠ []) (r : String)
    (hr : r ∈ entries.map Prod.fst) :
    r ∈ ((processGroup g entries).1).map Prod.fst := by
  unfold processGroup
  by_cases hg : g = none ∨ g = some "cover" ∨ g = some "toc"
  · rw [if_pos hg]
    rcases List.mem_map.mp hr with ⟨p, hp, hpr⟩
    cases hc : p.2 with
    | nil => exact absurd hc (hne p hp)
    | cons c0 rest =>
      apply List.mem_map.mpr
      refine ⟨(p.1, c0), ?_, hpr⟩
      apply List.mem_filterMap.mpr
      exact ⟨p, hp, by rw [hc]; rfl⟩
  · rw [if_neg hg]
    have hneS : ∀ p ∈ groupProcOrder entries, p.2 ≠ [] := fun p hp =>
      hne p ((List.perm_insertionSort roleProcLE entries).subset hp)
    rcases allocFold_roles (groupProcOrder entries) ⟨[], [], []⟩ hneS with
      ⟨tail, htail, hroles⟩
    show r ∈ (((groupProcOrder entries).foldl allocStep
      ⟨[], [], []⟩).selected).map Prod.fst
    have hsel : (((groupProcOrder entries).foldl allocStep
        ⟨[], [], []⟩).selected).map Prod.fst = tail.map Prod.fst := by
      rw [htail]; rfl
    rw [hsel, hroles]
    exact ((List.perm_insertionSort roleProcLE entries).map Prod.fst).mem_iff.mpr hr

/-- **C7.** With a heading cap in force, a role-map value that names an
    over-cap title level is recorded in the overflow list (not silently
    dropped); the explicit role-map branches of `_match_role` return the
    mapped role with source `explicit` regardless of any cap; and a role
    holding a non-empty candidate list keeps an entry through its group's
    conflict resolution. -/
theorem claim_C7_heading_cap_overflow :
    (∀ (parseName : String → Option Int)
       (styles : List (String × DetectStyle))
       (samples : List (String × SampleStatsD))
       (nameMap idMap : List (String × String)) (mh L : Int) (v : String),
      v ∈ nameMap.map Prod.snd ++ idMap.map Prod.snd →
      extractTitleLevelFromRole v = some L →
      0 < L → mh < L →
      L ∈ (detectHeadingLevels parseName styles samples nameMap idMap
        (some mh)).2.1) ∧
    (∀ (specialByName : String → Option String)
       (parseName : String → Option Int) (bodyKw : String → Bool)
       (specialText : Option SampleStatsD → Option String)
       (resolved : ResolvedStyle) (nameMap idMap : List (String × String))
       (omax omin mhead : Option Int) (stats : Option SampleStatsD)
       (mapped : String),
      pyLower resolved.styleId ≠ "" →
      alistGet idMap (pyLower resolved.styleId) = some mapped →
      matchRole specialByName parseName bodyKw specialText resolved nameMap
        idMap omax omin mhead stats = some (mapped, "explicit")) ∧
    (∀ (specialByName : String → Option String)
       (parseName : String → Option Int) (bodyKw : String → Bool)
       (specialText : Option SampleStatsD → Option String)
       (resolved : ResolvedStyle) (nameMap idMap : List (String × String))
       (omax omin mhead : Option Int) (stats : Option SampleStatsD)
       (mapped : String),
      (if pyLower resolved.styleId ≠ "" then
        alistGet idMap (pyLower resolved.styleId) else none) = none →
      pyLower (resolved.name.getD "") ≠ "" →
      alistGet nameMap (pyLower (resolved.name.getD "")) = some mapped →
      matchRole specialByName parseName bodyKw specialText resolved nameMap
        idMap omax omin mhead stats = some (mapped, "explicit")) ∧
    (∀ (g : Option String) (entries : List RoleEntry),
      (∀ p ∈ entries, p.2 ≠ []) →
      ∀ r ∈ entries.map Prod.fst,
        r ∈ ((processGroup g entries).1).map Prod.fst) :=
  ⟨fun pN sty sa nm im mh L v hv hx hL hmh =>
      detectHeadingLevels_overflow_mem pN sty sa nm im mh L v hv hx hL hmh,
   fun sBN pN bK sT res nm im omax omin mh st m hne hget =>
      matchRole_explicit_id sBN pN bK sT res nm im omax omin mh st m hne hget,
   fun sBN pN bK sT res nm im omax omin mh st m hid hnn hget =>
      matchRole_explicit_name sBN pN bK sT res nm im omax omin mh st m hid
        hnn hget,
   fun g entries hne r hr => processGroup_keeps_roles g entries hne r hr⟩

/-- A resolved style carrying id s1, for exercising the explicit branch. -/
def c7Resolved : ResolvedStyle :=
  { styleId := "s1", name := none, fonts := {}, fontName := none
    fontSizePt := none, bold := none, alignment := none
    spaceBeforePt := none, spaceAfterPt := none, lineRule := none
    lineTwips := none, outlineLevel := none }

def c7Cand : Candidate :=
  { source := "explicit", stats := none, order := 0, completeness := 0,
    styleId := "s1", resolvedNameTocLevel := none }

/-- Running C7 on concrete data: a name-map value title_L9 under cap 6 lands
    9 in the overflow output, the explicit id-map branch returns title_L9,
    and title_L9 survives the title group's allocation. -/
theorem claim_C7_witness :
    9 ∈ (detectHeadingLevels (fun _ => none) [] []
      [("heading x", "title_L9")] [] (some 6)).2.1 ∧
    matchRole (fun _ => none) (fun _ => none) (fun _ => false) (fun _ => none)
      c7Resolved [] [("s1", "title_L9")] none none (some 6) none =
      some ("title_L9", "explicit") ∧
    "title_L9" ∈ ((processGroup (some "title")
      [("title_L9", [c7Cand])]).1).map Prod.fst := by
  refine ⟨?_, ?_, ?_⟩
  · exact claim_C7_heading_cap_overflow.1 (fun _ => none) [] []
      [("heading x", "title_L9")] [] 6 9 "title_L9" (by decide) (by decide)
      (by decide) (by decide)
  · exact claim_C7_heading_cap_overflow.2.1 (fun _ => none) (fun _ => none)
      (fun _ => false) (fun _ => none) c7Resolved [] [("s1", "title_L9")]
      none none (some 6) none "title_L9" (by decide) (by decide)
  · exact claim_C7_heading_cap_overflow.2.2.2 (some "title")
      [("title_L9", [c7Cand])] (by decide) "title_L9" (by decide)

/-- `_GLOBAL_BODY_CANDIDATE_ROLE` from src/template_parser.py. -/
def globalBodyCandidateRole : String := "_global_body_candidate"

/-- `_COVER_SECTION_KEY` from src/template_parser.py. -/
def coverSectionKey : String := "cover"

/-- A source paragraph as the classifier loop of
    `_collect_body_candidates_by_stack` reads it: the text, style id and
    name, and the outcomes of the shape probes the loop applies
    (`_is_blank_paragraph`, `_is_table_paragraph`, `_paragraph_has_drawing`,
    `_paragraph_has_page_break`, `_extract_formula_flags`,
    `_extract_paragraph_outline_level`, `_extract_run_script` per run). -/
structure Para where
  text : String
  styleId : Option String := none
  styleName : Option String := none
  isBlank : Bool := false
  inTable : Bool := false
  hasDrawing : Bool := false
  hasPageBreak : Bool := false
  hasMath : Bool := false
  hasFormulaNumber : Bool := false
  hasNonNumberText : Bool := false
  outlineLevel : Option Int := none
  runScripts : List String := []
  deriving Repr, DecidableEq

/-- The standalone text/paragraph pattern helpers the loop calls, abstracted
    as data (each is a regex or keyword battery defined elsewhere in
    src/template_parser.py); `captionRole` stands for the
    `caption_roles_by_id` lookup keyed here by paragraph position and
    `captionObjectPresence` for the presence dict of `_resolve_caption_roles`. -/
structure StackMatchers where
  isDocumentTitleCandidate : Para → Bool
  isDocumentTitleEnCandidate : Para → Bool
  matchInlineAbstractRole : String → Option String
  isKeywordLine : String → Bool
  isTocLine : Option String → Bool
  looksLikeTocEntry : String → Bool
  recordTocLevel : Option String → String → Option Int
  matchSpecialRoleByTextValue : String → Option String
  matchTitleRoleByTextValue : String → Option String
  matchSpecialRoleByStyleName : String → Option String
  parseHeadingLevelFromName : String → Option Int
  isNoteParagraph : String → Option String → Bool
  captionRole : Int → Option String
  captionObjectPresence : String → Bool

/-- The configuration arguments of `_collect_body_candidates_by_stack`. -/
structure StackCfg where
  nameMap : List (String × String)
  idMap : List (String × String)
  maxHeadingLevel : Option Int := none
  outlineLevelMax : Option Int := none
  outlineLevelMin : Option Int := none
  enableCoverDetection : Bool := true
  deriving Repr

/-- One `_record` call, reduced to the fact that a candidate registration happened:
    the role, the style id key (empty when missing but allowed), the
    paragraph index and the source tag; the per-style statistics the source
    accumulates are out of scope. -/
structure RecordEvent where
  role : String
  styleId : String
  index : Int
  source : String
  deriving Repr, DecidableEq

/-- The `active_section` dict: the rule, its body role and the remaining
    paragraph budget. -/
structure ActiveSection where
  rule : SectionRule
  bodyRole : String
  remaining : Int
  deriving Repr, DecidableEq

/-- The mutable state of the classifier loop. -/
structure StackState where
  events : List RecordEvent
  titleStack : List Int
  abstractMode : Bool
  abstractEnMode : Bool
  referenceMode : Bool
  tocMode : Bool
  coverDetected : Bool
  coverTitleRecorded : Bool
  pendingCoverTitle : Option (Option String × Int)
  documentTitleFound : Bool
  documentTitleEnFound : Bool
  documentTitleIndex : Option Int
  pendingCaptions : List (String × Int)
  activeSection : Option ActiveSection
  paragraphIndex : Int
  contentIndex : Int
  deriving Repr, DecidableEq

/-- `_record`: skipped when the style id is falsy and missing styles are not
    allowed (the sampling payload is out of scope, so `prefer_first_run` has
    no trace here). -/
def recordCand (st : StackState) (role : String) (styleId : Option String)
    (index : Int) (source : String) (allowMissing : Bool) : StackState :=
  if styleId.getD "" = "" ∧ allowMissing = false then st
  else { st with events := st.events ++ [⟨role, styleId.getD "", index, source⟩] }

/-- `_prune_pending`. -/
def prunePending (st : StackState) (cur : Int) : StackState :=
  { st with pendingCaptions := st.pendingCaptions.filter (fun it => cur - it.2 ≤ 2) }

/-- `_commit_cover_title`. -/
def commitCoverTitle (st : StackState) : StackState :=
  if st.coverTitleRecorded then st
  else match st.pendingCoverTitle with
    | none => st
    | some (sid, idx) =>
      let st1 := recordCand st "cover_title" sid idx "stack" false
      { st1 with coverTitleRecorded := true, pendingCoverTitle := none }

/-- `_commit_document_title_from_pending`. -/
def commitDocumentTitleFromPending (st : StackState) : StackState :=
  if st.documentTitleFound then st
  else match st.pendingCoverTitle with
    | none => st
    | some (sid, idx) =>
      let st1 := recordCand st "document_title" sid idx "stack" false
      { st1 with
        documentTitleFound := true
        documentTitleIndex := some idx
        pendingCoverTitle := none }

/-- `_section_title_role`. -/
def sectionTitleRole (r : SectionRule) : String :=
  if r.key = coverSectionKey then "cover_title"
  else "section_" ++ r.key ++ "_title"

/-- `_section_body_role`. -/
def sectionBodyRole (r : SectionRule) : String :=
  if r.key = coverSectionKey then "cover_info"
  else "section_" ++ r.key ++ "_body"

/-- `_section_front_limit`. -/
def sectionFrontLimit (total : Int) : Int :=
  if total ≤ 0 then 0 else min 30 (max 5 (total / 3))

/-- The `content_page_numbers` prepass: the page number of each content
    paragraph, pages advancing at explicit page breaks. -/
def contentPageNumbers (paras : List Para) : List Int :=
  (paras.foldl (fun acc p =>
    let acc1 := if !p.isBlank && !p.inTable then (acc.1 ++ [acc.2], acc.2) else acc
    if p.hasPageBreak then (acc1.1, acc1.2 + 1) else acc1)
    (([] : List Int), (1 : Int))).1

/-- `_content_page_for_index`. -/
def contentPageForIndex (pages : List Int) (index : Int) : Option Int :=
  if index < 0 ∨ (pages.length : Int) ≤ index then none
  else pages.get? index.toNat

/-- The precomputed section environment: rules, page tally and the front and
    back boundaries. -/
structure SectionEnv where
  rules : List SectionRule
  pages : List Int
  contentTotal : Int
  frontLimit : Int
  backStart : Int
  lastPage : Int
  deriving Repr

def mkSectionEnv (rules : List SectionRule) (paras : List Para) : SectionEnv :=
  let pages := contentPageNumbers paras
  let total : Int := ((paras.filter (fun p => !p.isBlank && !p.inTable)).length : Int)
  let fl := sectionFrontLimit total
  { rules := rules, pages := pages, contentTotal := total, frontLimit := fl,
    backStart := max 0 (total - fl), lastPage := (pages.getLast?).getD 1 }

/-- `_section_position_matches`. -/
def sectionPositionMatches (env : SectionEnv) (r : SectionRule) (index : Int) :
    Bool :=
  if env.contentTotal ≤ 0 ∨ index < 0 then false
  else match r.position with
    | .firstPage => decide (contentPageForIndex env.pages index = some 1)
    | .front => decide (index < env.frontLimit)
    | .back => decide (env.backStart ≤ index)
    | .lastPage => decide (contentPageForIndex env.pages index = some env.lastPage)
    | .body => true

/-- Whether `needle` occurs as a contiguous sublist (Python `in` on str). -/
def listContainsSub (needle : List Char) : List Char → Bool
  | [] => needle.isEmpty
  | c :: rest => (listIsPrefix needle (c :: rest)).isSome || listContainsSub needle rest

/-- Embeds `_keyword_matches`: case-insensitive equality or substring test,
    retried on the whitespace-free compact forms. -/
def keywordMatches (text keyword : String) : Bool :=
  let clean := pyStrip text
  let kw := pyStrip keyword
  if clean = "" ∨ kw = "" then false
  else
    let cleanLower := (pyLower clean).data
    let kwLower := (pyLower kw).data
    if cleanLower = kwLower then true
    else if listContainsSub kwLower cleanLower then true
    else
      let cleanCompact := cleanLower.filter (fun c => !c.isWhitespace)
      let kwCompact := kwLower.filter (fun c => !c.isWhitespace)
      if cleanCompact.isEmpty ∨ kwCompact.isEmpty then false
      else if cleanCompact = kwCompact then true
      else listContainsSub kwCompact cleanCompact

/-- Embeds `_match_section_title`: the first rule whose position matches and
    whose title keywords (or title style names) hit. -/
def matchSectionTitle (env : SectionEnv) (text : String)
    (styleName : Option String) (index : Int) : Option SectionRule :=
  if env.rules.isEmpty ∨ text = "" ∨ index < 0 then none
  else
    let styleLower := match styleName with
      | some sn => if sn = "" then "" else pyLower sn
      | none => ""
    env.rules.find? (fun r =>
      sectionPositionMatches env r index &&
      (r.titleKeywords.any (fun kw => kw != "" && keywordMatches text kw) ||
       (!r.titleStyleNames.isEmpty && styleLower != "" &&
        r.titleStyleNames.any (fun n => n != "" && styleLower == pyLower n))))

/-- Embeds `_match_section_content`. -/
def matchSectionContent (env : SectionEnv) (text : String) (index : Int) :
    Option SectionRule :=
  if env.rules.isEmpty ∨ text = "" ∨ index < 0 then none
  else env.rules.find? (fun r =>
    !r.contentKeywords.isEmpty &&
    sectionPositionMatches env r index &&
    r.contentKeywords.any (fun kw => kw != "" && keywordMatches text kw))

/-- Embeds `_next_active_section`. -/
def nextActiveSection (r : SectionRule) : Option ActiveSection :=
  let remaining := r.bodyParagraphLimit.getD 0
  if r.bodyRange = .fixedParagraphs then
    if remaining - 1 ≤ 0 then none
    else some ⟨r, sectionBodyRole r, remaining - 1⟩
  else some ⟨r, sectionBodyRole r, remaining⟩

/-- The run-script registration (`_register_run_style` keeps run-level font
    samples under the superscript/subscript roles; only the registration
    fact is kept). -/
def registerRunScripts (st : StackState) (styleId : Option String) (idx : Int)
    (p : Para) : StackState :=
  p.runScripts.foldl (fun st script =>
    if script = "superscript" then
      { st with events := st.events ++ [⟨"superscript", styleId.getD "", idx, "run"⟩] }
    else if script = "subscript" then
      { st with events := st.events ++ [⟨"subscript", styleId.getD "", idx, "run"⟩] }
    else st) st

def removeFirstCaption : List (String × Int) → (String × Int) → List (String × Int)
  | [], _ => []
  | x :: xs, y => if x = y then xs else x :: removeFirstCaption xs y

/-- Python `min` with key `(paragraph_index - index, -index)` (first minimum
    kept). -/
def minCaption (cur : Int) (l : List (String × Int)) : Option (String × Int) :=
  l.foldl (fun acc it =>
    match acc with
    | none => some it
    | some b =>
      if cur - it.2 < cur - b.2 ∨ (cur - it.2 = cur - b.2 ∧ -it.2 < -b.2) then
        some it
      else some b) none

/-- One iteration of the classifier loop of
    `_collect_body_candidates_by_stack` (src/template_parser.py). Each
    Python `continue` becomes a `throw` of the state carried onward; the
    `toc_levels` and `title_spacing` side dicts the source optionally fills
    are out of scope (they feed no role candidate). -/
def stepPara (m : StackMatchers) (cfg : StackCfg) (env : SectionEnv)
    (st0 : StackState) (p : Para) : StackState :=
  let idx := st0.paragraphIndex + 1
  let text := p.text
  let styleId := p.styleId
  let styleName := p.styleName
  let run : Except StackState StackState := do
    let st := { st0 with
      paragraphIndex := idx,
      contentIndex := if !p.isBlank && !p.inTable then st0.contentIndex + 1
        else st0.contentIndex }
    let explicitRole : Option String :=
      match (match styleId with
             | some sid => if sid = "" then none else alistGet cfg.idMap (pyLower sid)
             | none => none) with
      | some r => some r
      | none =>
        match styleName with
        | some sn =>
          if sn = "" then none
          else alistGet cfg.nameMap (pyLower (pyStrip sn))
        | none => none
    -- an open until_blank section closes at a blank paragraph
    if (match st.activeSection with
        | some a => decide (a.rule.bodyRange = .untilBlank)
        | none => false) && p.isBlank && !p.hasDrawing then
      throw (prunePending { st with activeSection := none } idx)
    if st.abstractEnMode && p.isBlank && !p.hasDrawing then
      throw (prunePending { st with abstractEnMode := false } idx)
    if st.abstractMode && p.isBlank && !p.hasDrawing then
      throw (prunePending { st with abstractMode := false } idx)
    if st.referenceMode && p.isBlank && !p.hasDrawing then
      throw (prunePending st idx)
    -- formulas
    let st ← do
      if p.hasMath then
        let st1 := if p.hasNonNumberText then
            recordCand st "formula_inline" styleId idx "stack" false
          else recordCand st "formula_block" styleId idx "stack" false
        let st2 := if p.hasFormulaNumber then
            recordCand st1 "formula_number" styleId idx "stack" true
          else st1
        let st3 := registerRunScripts st2 styleId idx p
        if !p.hasNonNumberText then
          throw (prunePending st3 idx)
        pure st3
      else pure st
    -- tables
    if p.inTable then
      let st1 := if !p.isBlank then
          recordCand st "table_body" styleId idx "stack" false
        else st
      throw (prunePending st1 idx)
    -- drawings
    let st ← do
      if p.hasDrawing then
        let st1 := recordCand st "figure_body" styleId idx "stack" false
        if p.isBlank then throw (prunePending st1 idx)
        pure st1
      else pure st
    -- table of contents mode
    let st ← do
      if st.tocMode && !p.isBlank then
        if m.isTocLine styleName || m.looksLikeTocEntry text then
          let role := match m.recordTocLevel styleName text with
            | none => "toc_body"
            | some lvl => "toc_body_L" ++ toString lvl
          throw (prunePending (recordCand st role styleId idx "stack" false) idx)
        pure { st with tocMode := false }
      else pure st
    let matchedSection0 := matchSectionTitle env (pyStrip text) styleName
      st.contentIndex
    let matchedContent := if !p.isBlank && matchedSection0.isNone then
        matchSectionContent env (pyStrip text) st.contentIndex
      else none
    -- a content-keyword hit opens the section directly on a body paragraph
    match matchedContent with
    | some mc => do
      if mc.key = coverSectionKey then
        if cfg.enableCoverDetection &&
            (match st.activeSection with
             | none => true
             | some a => mc.key != a.rule.key) then
          let st1 := commitCoverTitle { st with coverDetected := true }
          let st2 := recordCand st1 "cover_info" styleId idx "stack" false
          throw (prunePending { st2 with activeSection := nextActiveSection mc }
            idx)
      else
        if (match st.activeSection with
            | none => true
            | some a => mc.key != a.rule.key) then
          let st1 := recordCand st (sectionBodyRole mc) styleId idx "stack" false
          throw (prunePending { st1 with activeSection := nextActiveSection mc }
            idx)
    | none => pure ()
    -- English document title shortly after the Chinese one
    if st.documentTitleFound && !st.documentTitleEnFound && !p.isBlank &&
        (match st.documentTitleIndex with
         | some di => decide (idx - di ≤ 6)
         | none => false) &&
        m.isDocumentTitleEnCandidate p then
      throw (prunePending
        ({ recordCand st "document_title_en" styleId idx "stack" false with
           documentTitleEnFound := true }) idx)
    -- document title candidate
    if !st.documentTitleFound && !p.isBlank && m.isDocumentTitleCandidate p then
      if st.coverDetected && cfg.enableCoverDetection then
        let st1 := if !st.coverTitleRecorded then
            { recordCand st "cover_title" styleId idx "stack" false with
              coverTitleRecorded := true }
          else st
        throw (prunePending st1 idx)
      if st.coverDetected then throw (prunePending st idx)
      let st1 := if st.pendingCoverTitle.isNone then
          { st with pendingCoverTitle := some (styleId, idx) }
        else st
      throw (prunePending st1 idx)
    -- inline abstract title
    let inlineAbstract := (m.matchInlineAbstractRole text).getD ""
    if inlineAbstract != "" && !p.isBlank then
      let st1 := recordCand st inlineAbstract styleId idx "stack" false
      let bodyRole := if inlineAbstract = "abstract_title" then "abstract_body"
        else "abstract_en_body"
      let st2 := recordCand st1 bodyRole styleId idx "stack" false
      let st3 := if inlineAbstract = "abstract_title" then
          { st2 with
            abstractMode := true, abstractEnMode := false,
            referenceMode := false, titleStack := [], tocMode := false }
        else
          { st2 with
            abstractEnMode := true, abstractMode := false,
            referenceMode := false, titleStack := [], tocMode := false }
      throw (prunePending st3 idx)
    -- a title hit of the active rule itself is suppressed
    let matchedSection := match matchedSection0, st.activeSection with
      | some ms, some a => if ms.key = a.rule.key then none else some ms
      | ms, _ => ms
    match matchedSection with
    | some ms => do
      if !p.isBlank then
        if ms.key = coverSectionKey ∧ cfg.enableCoverDetection = true then
          throw (prunePending (commitCoverTitle { st with coverDetected := true })
            idx)
        let st1 := recordCand { st with activeSection := none }
          (sectionTitleRole ms) styleId idx "stack" false
        throw (prunePending
          { st1 with
            activeSection :=
              some ⟨ms, sectionBodyRole ms, ms.bodyParagraphLimit.getD 0⟩ } idx)
    | none => pure ()
    -- the title-role cascade
    let explicitGroup := match explicitRole with
      | some r => if r = "" then none else resolveRoleGroup r
      | none => none
    let captionRole := m.captionRole idx
    let titleRole : Option String :=
      if explicitRole.getD "" != "" &&
         (explicitGroup == some "title" || explicitGroup == some "special_title" ||
          explicitGroup == some "caption") then
        explicitRole
      else
        let t1 : Option String :=
          match captionRole with
          | some cr => some cr
          | none =>
            let textRole0 := m.matchSpecialRoleByTextValue text
            let textRole1 := match textRole0 with
              | some "figure_caption" =>
                if m.captionObjectPresence "figure" then none
                else some "figure_caption"
              | some "table_caption" =>
                if m.captionObjectPresence "table" then none
                else some "table_caption"
              | r => r
            if textRole1.getD "" != "" then textRole1 else none
        let t2 : Option String :=
          match t1 with
          | some r => some r
          | none =>
            match cfg.outlineLevelMax, cfg.outlineLevelMin, p.outlineLevel with
            | some omax, some omin, some ol =>
              if ol ≤ omax then
                let normalized := ol - omin + 1
                if decide (0 < normalized) &&
                   (match cfg.maxHeadingLevel with
                    | none => true
                    | some mh => decide (normalized ≤ mh)) then
                  some ("title_L" ++ toString normalized)
                else none
              else none
            | _, _, _ => none
        let t3 : Option String :=
          match t2 with
          | some r => some r
          | none =>
            match styleName with
            | some sn =>
              if sn = "" then none
              else
                let sp := (m.matchSpecialRoleByStyleName sn).getD ""
                if sp != "" then some sp
                else
                  match m.parseHeadingLevelFromName sn with
                  | some lvl =>
                    if (match cfg.maxHeadingLevel with
                        | none => true
                        | some mh => decide (lvl ≤ mh)) then
                      some ("title_L" ++ toString lvl)
                    else none
                  | none => none
            | none => none
        match t3 with
        | some r => some r
        | none =>
          let hr := (m.matchTitleRoleByTextValue text).getD ""
          if hr != "" then
            match extractTitleLevelFromRole hr with
            | none => some hr
            | some lvl =>
              match cfg.maxHeadingLevel with
              | none => some hr
              | some mh => if lvl ≤ mh then some hr else none
          else none
    -- the active section absorbs body paragraphs per its policy
    let st ← do
      match st.activeSection with
      | some a => do
        if !p.isBlank then
          if a.rule.bodyRange = .fixedParagraphs then
            let st1 := recordCand st a.bodyRole styleId idx "stack" false
            let remaining := a.remaining - 1
            let st2 := if remaining ≤ 0 then { st1 with activeSection := none }
              else { st1 with activeSection := some { a with remaining := remaining } }
            throw (prunePending st2 idx)
          if a.rule.bodyRange = .untilNextTitle then
            if titleRole.isNone then
              throw (prunePending
                (recordCand st a.bodyRole styleId idx "stack" false) idx)
            pure { st with activeSection := none }
          else
            throw (prunePending
              (recordCand st a.bodyRole styleId idx "stack" false) idx)
        else pure st
      | none => pure st
    -- explicit body-family mapping
    if explicitRole.getD "" != "" &&
       (explicitGroup == some "body" || explicitGroup == some "special_body" ||
        explicitGroup == some "note") then
      let st1 := if !p.isBlank then
          recordCand st (explicitRole.getD "") styleId idx "explicit" false
        else st
      throw (prunePending st1 idx)
    -- a pending cover title becomes the document title
    let st := if titleRole.getD "" != "" && st.pendingCoverTitle.isSome &&
        !st.coverDetected then
      commitDocumentTitleFromPending st else st
    -- title handling
    match titleRole with
    | some tr => do
      if tr ≠ "" then
        let st1 := if !p.isBlank then
            recordCand st tr styleId idx
              (if explicitRole.getD "" != "" then "explicit" else "stack") false
          else st
        let st2 :=
          if tr = "abstract_title" then
            { st1 with
              abstractMode := true, abstractEnMode := false,
              referenceMode := false, titleStack := [], tocMode := false }
          else if tr = "abstract_en_title" then
            { st1 with
              abstractEnMode := true, abstractMode := false,
              referenceMode := false, titleStack := [], tocMode := false }
          else if tr = "reference_title" then
            { st1 with
              referenceMode := true, abstractMode := false,
              abstractEnMode := false, titleStack := [], tocMode := false }
          else if tr = "toc_title" then
            { st1 with
              tocMode := true, abstractMode := false,
              abstractEnMode := false, referenceMode := false, titleStack := [] }
          else if strStartsWith "title_L" tr then
            let lvl := match extractTitleLevelFromRole tr with
              | some l => if l = 0 then 1 else l
              | none => 1
            { st1 with
              abstractMode := false, abstractEnMode := false,
              referenceMode := false, tocMode := false,
              titleStack :=
                ((st1.titleStack.reverse.dropWhile (fun l => lvl ≤ l)).reverse)
                  ++ [lvl] }
          else if tr = "figure_caption" ∨ tr = "table_caption" then
            { st1 with
              abstractMode := false, referenceMode := false,
              tocMode := false,
              pendingCaptions := st1.pendingCaptions ++
                [(if tr = "figure_caption" then "figure" else "table", idx)] }
          else st1
        throw (prunePending st2 idx)
    | none => pure ()
    -- keyword line
    if !p.isBlank && m.isKeywordLine text then
      throw (prunePending
        (recordCand st "keyword_line" styleId idx "stack" false) idx)
    -- open abstract / reference accumulation
    if st.abstractEnMode then
      let st1 := if !p.isBlank then
          recordCand st "abstract_en_body" styleId idx "stack" false
        else st
      throw (prunePending st1 idx)
    if st.abstractMode then
      let st1 := if !p.isBlank then
          recordCand st "abstract_body" styleId idx "stack" false
        else st
      throw (prunePending st1 idx)
    if st.referenceMode then
      let st1 := if !p.isBlank then
          recordCand st "reference_body" styleId idx "stack" false
        else st
      throw (prunePending st1 idx)
    -- figure/table notes trailing a caption
    if !st.pendingCaptions.isEmpty && m.isNoteParagraph text styleName then
      let cands := st.pendingCaptions.filter
        (fun it => 1 ≤ idx - it.2 ∧ idx - it.2 ≤ 2)
      match minCaption idx cands with
      | some chosen => do
        let noteRole := if chosen.1 = "figure" then "figure_note" else "table_note"
        let st1 := recordCand st noteRole styleId idx "stack" false
        throw (prunePending
          { st1 with
            pendingCaptions := removeFirstCaption st1.pendingCaptions chosen }
          idx)
      | none => pure ()
    -- plain body paragraph: stacked body level or the global body candidate
    let st := if !p.isBlank then
        match st.titleStack.getLast? with
        | some lvl =>
          recordCand st ("body_L" ++ toString lvl) styleId idx "stack" false
        | none => recordCand st globalBodyCandidateRole styleId idx "global" false
      else st
    let st := registerRunScripts st styleId idx p
    pure (prunePending st idx)
  match run with
  | .ok s => s
  | .error s => s

/-- The loop's initial state. -/
def initialStackState : StackState :=
  { events := [], titleStack := [], abstractMode := false, abstractEnMode := false,
    referenceMode := false, tocMode := false, coverDetected := false,
    coverTitleRecorded := false, pendingCoverTitle := none,
    documentTitleFound := false, documentTitleEnFound := false,
    documentTitleIndex := none, pendingCaptions := [], activeSection := none,
    paragraphIndex := 0, contentIndex := -1 }

/-- Embeds the classification phase of `_collect_body_candidates_by_stack`:
    the loop over paragraphs plus the trailing pending-cover-title commit;
    returns the record events in order. -/
def collectBodyCandidatesByStack (m : StackMatchers) (cfg : StackCfg)
    (rules : List SectionRule) (paras : List Para) : List RecordEvent :=
  let env := mkSectionEnv rules paras
  let st := paras.foldl (stepPara m cfg env) initialStackState
  let st1 := match st.pendingCoverTitle with
    | some _ =>
      if st.coverDetected && !st.coverTitleRecorded then commitCoverTitle st
      else if !st.documentTitleFound then commitDocumentTitleFromPending st
      else st
    | none => st
  st1.events

/-- `DEFAULT_SECTION_RULES` from src/section_rules.py. -/
def defaultSectionRules : List SectionRule :=
  [{ key := "original_statement", displayName := "原创声明",
     titleKeywords := ["原创声明", "原创性声明", "原创性申明", "学术诚信声明",
       "独创性声明", "学位论文原创性声明", "学位论文原创性申明",
       "学位论文独创性声明", "诚信声明"],
     position := .front, bodyRange := .untilNextTitle },
   { key := "authorization_statement", displayName := "授权声明",
     titleKeywords := ["授权声明", "版权声明", "使用授权声明",
       "学位论文版权使用授权书"],
     position := .front, bodyRange := .untilBlank },
   { key := "acknowledgement", displayName := "致谢",
     titleKeywords := ["致谢", "感谢", "鸣谢"],
     position := .back, bodyRange := .untilNextTitle }]

/-- A matcher bundle under which none of the abstracted regex batteries
    fire; the texts of the C5 sequences hit none of them in the source. -/
def nullMatchers : StackMatchers :=
  { isDocumentTitleCandidate := fun _ => false
    isDocumentTitleEnCandidate := fun _ => false
    matchInlineAbstractRole := fun _ => none
    isKeywordLine := fun _ => false
    isTocLine := fun _ => false
    looksLikeTocEntry := fun _ => false
    recordTocLevel := fun _ _ => none
    matchSpecialRoleByTextValue := fun _ => none
    matchTitleRoleByTextValue := fun _ => none
    matchSpecialRoleByStyleName := fun _ => none
    parseHeadingLevelFromName := fun _ => none
    isNoteParagraph := fun _ _ => false
    captionRole := fun _ => none
    captionObjectPresence := fun _ => false }

/-- A plain styled text paragraph (blank exactly when the text strips to
    nothing). -/
def textPara (t : String) (sid : String) : Para :=
  { text := t, styleId := some sid, isBlank := decide (pyStrip t = "") }

def c5Cfg : StackCfg := { nameMap := [], idMap := [] }

def c5Run1 : List RecordEvent :=
  collectBodyCandidatesByStack nullMatchers c5Cfg defaultSectionRules
    [textPara "授权声明" "sA", textPara "" "sA", textPara "content" "sA"]

def c5Run2 : List RecordEvent :=
  collectBodyCandidatesByStack nullMatchers c5Cfg defaultSectionRules
    [textPara "原创声明" "sA", textPara "" "sA", textPara "content" "sA",
     textPara "致谢" "sA"]

def c5FixedRule : SectionRule :=
  { key := "notice", displayName := "公告", titleKeywords := ["公告"],
    bodyRange := .fixedParagraphs, bodyParagraphLimit := some 2 }

def c5Run3 : List RecordEvent :=
  collectBodyCandidatesByStack nullMatchers c5Cfg [c5FixedRule]
    [textPara "公告" "sB", textPara "one" "sB", textPara "two" "sB",
     textPara "three" "sB"]

/-- **C5.** Under the default section rules, [授权声明, blank, content]
    records no candidate under the authorization section's body role (the
    until_blank policy closes at the blank), while [原创声明, blank, content,
    致谢] records `content` under section_original_statement_body, records
    nothing later than `content` under that role, and hands 致谢 to the
    acknowledgement section (the blank is transparent and the next
    title-like paragraph closes the section); a fixed-paragraph-count
    section consumes exactly its configured number of paragraphs then
    closes. -/
theorem claim_C5_section_termination :
    (∀ e ∈ c5Run1, e.role ≠ "section_authorization_statement_body") ∧
    (⟨"section_authorization_statement_title", "sA", 1, "stack"⟩ : RecordEvent)
      ∈ c5Run1 ∧
    (⟨"section_original_statement_body", "sA", 3, "stack"⟩ : RecordEvent)
      ∈ c5Run2 ∧
    (∀ e ∈ c5Run2, e.role = "section_original_statement_body" → e.index = 3) ∧
    (⟨"section_acknowledgement_title", "sA", 4, "stack"⟩ : RecordEvent)
      ∈ c5Run2 ∧
    (⟨"section_notice_body", "sB", 2, "stack"⟩ : RecordEvent) ∈ c5Run3 ∧
    (⟨"section_notice_body", "sB", 3, "stack"⟩ : RecordEvent) ∈ c5Run3 ∧
    (∀ e ∈ c5Run3, e.role = "section_notice_body" →
      e.index = 2 ∨ e.index = 3) := by
  decide

end ATT
